import Mathlib

/-!
Verification development for the coffio library (IKM lists, storage codec,
canonicalization, cipher engine, decryption policy).

Modelling conventions:
* Byte strings and text are both modelled as lists of natural numbers
  (byte values, resp. ASCII codes).
* Rust SystemTime is modelled as whole seconds plus a sub-second part,
  both counted from the Unix epoch (times before the epoch are not
  representable in this model; the corresponding Rust error paths are
  noted where relevant).
* External cryptographic primitives (KDFs, AEAD cores, the OS RNG) are
  parameters of the functions that use them, mirroring how the source
  selects them through function pointers.
-/

/-- ASCII codes of a string literal, used to transcribe text constants. -/
def asciiOf (s : String) : List Nat :=
  s.data.map Char.toNat

/-- Value-to-character table of the base64url alphabet used by the
base64ct crate (A-Z, a-z, 0-9, minus, underscore). -/
def b64_enc_char (n : Nat) : Nat :=
  if n < 26 then 65 + n
  else if n < 52 then 97 + (n - 26)
  else if n < 62 then 48 + (n - 52)
  else if n = 62 then 45
  else 95

/-- Character-to-value table of the base64url alphabet. -/
def b64_dec_char (c : Nat) : Option Nat :=
  if 65 ≤ c ∧ c ≤ 90 then some (c - 65)
  else if 97 ≤ c ∧ c ≤ 122 then some (26 + (c - 97))
  else if 48 ≤ c ∧ c ≤ 57 then some (52 + (c - 48))
  else if c = 45 then some 62
  else if c = 95 then some 63
  else none

/-- Base64url-no-padding encoding of a byte string
(base64ct, Base64UrlUnpadded::encode_string). -/
def b64_encode : List Nat → List Nat
  | [] => []
  | [b0] => [b64_enc_char (b0 / 4), b64_enc_char (b0 % 4 * 16)]
  | [b0, b1] =>
    [b64_enc_char (b0 / 4), b64_enc_char (b0 % 4 * 16 + b1 / 16),
     b64_enc_char (b1 % 16 * 4)]
  | b0 :: b1 :: b2 :: rest =>
    b64_enc_char (b0 / 4) :: b64_enc_char (b0 % 4 * 16 + b1 / 16) ::
    b64_enc_char (b1 % 16 * 4 + b2 / 64) :: b64_enc_char (b2 % 64) ::
    b64_encode rest

/-- Errors of the base64ct crate. -/
inductive B64Error
  | invalidEncoding
  | invalidLength
deriving DecidableEq, Repr

/-- Base64url-no-padding decoding (base64ct, Base64UrlUnpadded::decode_vec):
strict, rejecting invalid characters, lengths congruent to 1 mod 4 and
non-canonical trailing bits. -/
def b64_decode : List Nat → Except B64Error (List Nat)
  | [] => .ok []
  | [_] => .error .invalidLength
  | [c0, c1] =>
    match b64_dec_char c0, b64_dec_char c1 with
    | some v0, some v1 =>
      if v1 % 16 = 0 then .ok [v0 * 4 + v1 / 16] else .error .invalidEncoding
    | _, _ => .error .invalidEncoding
  | [c0, c1, c2] =>
    match b64_dec_char c0, b64_dec_char c1, b64_dec_char c2 with
    | some v0, some v1, some v2 =>
      if v2 % 4 = 0 then .ok [v0 * 4 + v1 / 16, v1 % 16 * 16 + v2 / 4]
      else .error .invalidEncoding
    | _, _, _ => .error .invalidEncoding
  | c0 :: c1 :: c2 :: c3 :: rest =>
    match b64_dec_char c0, b64_dec_char c1, b64_dec_char c2, b64_dec_char c3 with
    | some v0, some v1, some v2, some v3 =>
      match b64_decode rest with
      | .ok bs => .ok ((v0 * 4 + v1 / 16) :: (v1 % 16 * 16 + v2 / 4) :: (v2 % 4 * 64 + v3) :: bs)
      | .error e => .error e
    | _, _, _, _ => .error .invalidEncoding

theorem b64_dec_enc_char (n : Nat) (h : n < 64) :
    b64_dec_char (b64_enc_char n) = some n := by
  revert h
  revert n
  decide

theorem b64_enc_char_ne_colon (n : Nat) : b64_enc_char n ≠ 58 := by
  unfold b64_enc_char
  split
  · omega
  · split
    · omega
    · split
      · omega
      · split
        · omega
        · omega

theorem b64_encode_ne_colon : ∀ (bs : List Nat), ∀ c ∈ b64_encode bs, c ≠ 58
  | [] => by intro c hc; simp [b64_encode] at hc
  | [b0] => by
    intro c hc
    simp only [b64_encode, List.mem_cons, List.mem_singleton, List.not_mem_nil] at hc
    rcases hc with h | h | h
    · exact h ▸ b64_enc_char_ne_colon _
    · exact h ▸ b64_enc_char_ne_colon _
    · exact absurd h (by simp)
  | [b0, b1] => by
    intro c hc
    simp only [b64_encode, List.mem_cons, List.not_mem_nil] at hc
    rcases hc with h | h | h | h
    · exact h ▸ b64_enc_char_ne_colon _
    · exact h ▸ b64_enc_char_ne_colon _
    · exact h ▸ b64_enc_char_ne_colon _
    · exact absurd h (by simp)
  | b0 :: b1 :: b2 :: rest => by
    intro c hc
    simp only [b64_encode, List.mem_cons] at hc
    rcases hc with h | h | h | h | h
    · exact h ▸ b64_enc_char_ne_colon _
    · exact h ▸ b64_enc_char_ne_colon _
    · exact h ▸ b64_enc_char_ne_colon _
    · exact h ▸ b64_enc_char_ne_colon _
    · exact b64_encode_ne_colon rest c h

theorem b64_decode_encode : ∀ (bs : List Nat), (∀ b ∈ bs, b < 256) →
    b64_decode (b64_encode bs) = .ok bs
  | [], _ => rfl
  | [b0], h => by
    have hb0 : b0 < 256 := h b0 (by simp)
    have e0 := b64_dec_enc_char (b0 / 4) (by omega)
    have e1 := b64_dec_enc_char (b0 % 4 * 16) (by omega)
    simp only [b64_encode, b64_decode, e0, e1]
    have hz : b0 % 4 * 16 % 16 = 0 := by omega
    rw [if_pos hz]
    have : b0 / 4 * 4 + b0 % 4 * 16 / 16 = b0 := by omega
    rw [this]
  | [b0, b1], h => by
    have hb0 : b0 < 256 := h b0 (by simp)
    have hb1 : b1 < 256 := h b1 (by simp)
    have e0 := b64_dec_enc_char (b0 / 4) (by omega)
    have e1 := b64_dec_enc_char (b0 % 4 * 16 + b1 / 16) (by omega)
    have e2 := b64_dec_enc_char (b1 % 16 * 4) (by omega)
    simp only [b64_encode, b64_decode, e0, e1, e2]
    have hz : b1 % 16 * 4 % 4 = 0 := by omega
    rw [if_pos hz]
    have h1 : b0 / 4 * 4 + (b0 % 4 * 16 + b1 / 16) / 16 = b0 := by omega
    have h2 : (b0 % 4 * 16 + b1 / 16) % 16 * 16 + b1 % 16 * 4 / 4 = b1 := by omega
    rw [h1, h2]
  | b0 :: b1 :: b2 :: rest, h => by
    have hb0 : b0 < 256 := h b0 (by simp)
    have hb1 : b1 < 256 := h b1 (by simp)
    have hb2 : b2 < 256 := h b2 (by simp)
    have e0 := b64_dec_enc_char (b0 / 4) (by omega)
    have e1 := b64_dec_enc_char (b0 % 4 * 16 + b1 / 16) (by omega)
    have e2 := b64_dec_enc_char (b1 % 16 * 4 + b2 / 64) (by omega)
    have e3 := b64_dec_enc_char (b2 % 64) (by omega)
    have ih := b64_decode_encode rest (fun b hb => h b (by simp [hb]))
    simp only [b64_encode, b64_decode, e0, e1, e2, e3, ih]
    have h1 : b0 / 4 * 4 + (b0 % 4 * 16 + b1 / 16) / 16 = b0 := by omega
    have h2 : (b0 % 4 * 16 + b1 / 16) % 16 * 16 + (b1 % 16 * 4 + b2 / 64) / 4 = b1 := by
      omega
    have h3 : (b1 % 16 * 4 + b2 / 64) % 4 * 64 + b2 % 64 = b2 := by omega
    rw [h1, h2, h3]

theorem b64_encode_eq_nil : ∀ (bs : List Nat), b64_encode bs = [] → bs = []
  | [], _ => rfl
  | [_], h => by simp [b64_encode] at h
  | [_, _], h => by simp [b64_encode] at h
  | _ :: _ :: _ :: _, h => by simp [b64_encode] at h

theorem b64_encode_injective (xs ys : List Nat) (hx : ∀ b ∈ xs, b < 256)
    (hy : ∀ b ∈ ys, b < 256) (h : b64_encode xs = b64_encode ys) : xs = ys := by
  have h1 := b64_decode_encode xs hx
  have h2 := b64_decode_encode ys hy
  rw [h, h2] at h1
  exact (Except.ok.injEq _ _).mp h1.symm

/-- Splitting on the ASCII colon, mirroring the Rust str split on the colon:
the result is never empty and empty fragments are preserved. -/
def split_colon : List Nat → List (List Nat)
  | [] => [[]]
  | c :: rest =>
    if c = 58 then [] :: split_colon rest
    else
      match split_colon rest with
      | [] => [[c]]
      | t :: ts => (c :: t) :: ts

/-- Joining with the ASCII colon, mirroring Rust slice::join(":"). -/
def join_colon : List (List Nat) → List Nat
  | [] => []
  | [x] => x
  | x :: xs => x ++ 58 :: join_colon xs

theorem split_colon_ne_nil : ∀ (s : List Nat), split_colon s ≠ []
  | [] => by simp [split_colon]
  | c :: rest => by
    simp only [split_colon]
    split
    · simp
    · split
      · simp
      · simp

theorem split_colon_no_colon : ∀ (xs : List Nat), (∀ c ∈ xs, c ≠ 58) →
    split_colon xs = [xs]
  | [], _ => rfl
  | c :: rest, h => by
    have hc : c ≠ 58 := h c (by simp)
    have ih := split_colon_no_colon rest (fun d hd => h d (by simp [hd]))
    simp only [split_colon, if_neg hc, ih]

theorem split_colon_append : ∀ (xs rest : List Nat), (∀ c ∈ xs, c ≠ 58) →
    split_colon (xs ++ 58 :: rest) = xs :: split_colon rest
  | [], rest, _ => by simp [split_colon]
  | c :: xs, rest, h => by
    have hc : c ≠ 58 := h c (by simp)
    have ih := split_colon_append xs rest (fun d hd => h d (by simp [hd]))
    simp only [List.cons_append, split_colon, if_neg hc, List.append_eq, ih]

theorem split_join_colon : ∀ (parts : List (List Nat)), parts ≠ [] →
    (∀ p ∈ parts, ∀ c ∈ p, c ≠ 58) →
    split_colon (join_colon parts) = parts
  | [], h, _ => absurd rfl h
  | [x], _, h => by
    simp only [join_colon]
    exact split_colon_no_colon x (h x (by simp))
  | x :: y :: rest, _, h => by
    have ih := split_join_colon (y :: rest) (by simp)
      (fun p hp => h p (by simp at hp ⊢; tauto))
    simp only [join_colon, split_colon_append x _ (h x (by simp)), ih]

/-- Version-tag stripping, mirroring Rust str::strip_prefix. -/
def strip_tag : List Nat → List Nat → Option (List Nat)
  | [], s => some s
  | _ :: _, [] => none
  | t :: ts, c :: cs => if t = c then strip_tag ts cs else none

theorem strip_tag_append : ∀ (tag rest : List Nat),
    strip_tag tag (tag ++ rest) = some rest
  | [], _ => rfl
  | t :: ts, rest => by
    simp only [List.cons_append, strip_tag, if_pos rfl]
    exact strip_tag_append ts rest

/-- Little-endian byte serialization of a 32-bit unsigned integer
(Rust u32::to_le_bytes; reduction mod 2^32 is explicit). -/
def u32_le_bytes (n : Nat) : List Nat :=
  [n % 256, n / 256 % 256, n / 65536 % 256, n / 16777216 % 256]

/-- Little-endian byte serialization of a 64-bit unsigned integer
(Rust u64::to_le_bytes; reduction mod 2^64 is explicit). -/
def u64_le_bytes (n : Nat) : List Nat :=
  [n % 256, n / 256 % 256, n / 65536 % 256, n / 16777216 % 256,
   n / 4294967296 % 256, n / 1099511627776 % 256,
   n / 281474976710656 % 256, n / 72057594037927936 % 256]

/-- Little-endian byte deserialization (Rust uN::from_le_bytes). -/
def from_le_bytes (bs : List Nat) : Nat :=
  bs.foldr (fun b acc => b + 256 * acc) 0

theorem from_le_u32 (n : Nat) (h : n < 4294967296) :
    from_le_bytes (u32_le_bytes n) = n := by
  simp only [u32_le_bytes, from_le_bytes, List.foldr]
  omega

theorem from_le_u64 (n : Nat) (h : n < 18446744073709551616) :
    from_le_bytes (u64_le_bytes n) = n := by
  simp only [u64_le_bytes, from_le_bytes, List.foldr]
  omega

theorem u32_le_bytes_length (n : Nat) : (u32_le_bytes n).length = 4 := rfl

theorem u64_le_bytes_length (n : Nat) : (u64_le_bytes n).length = 8 := rfl

theorem u32_le_bytes_lt (n : Nat) : ∀ b ∈ u32_le_bytes n, b < 256 := by
  simp only [u32_le_bytes, List.mem_cons, List.not_mem_nil]
  intro b hb
  rcases hb with h | h | h | h | h
  all_goals first | omega | simp at h

theorem u64_le_bytes_lt (n : Nat) : ∀ b ∈ u64_le_bytes n, b < 256 := by
  simp only [u64_le_bytes, List.mem_cons, List.not_mem_nil]
  intro b hb
  rcases hb with h | h | h | h | h | h | h | h | h
  all_goals first | omega | simp at h

/-- Errors of the library (src/error.rs); payloads that carry foreign
opaque data (underlying cipher errors, getrandom errors, the display
string of a SystemTimeError) are dropped. -/
inductive Error
  | aesGcmError
  | chaCha20Poly1305Error
  | ikmNoneAvailable
  | ikmNotFound (id : Nat)
  | invalidNonceSize (expected got : Nat)
  | parsingBase64Error (e : B64Error)
  | parsingEncodedDataEmptyNonce
  | parsingEncodedDataEmptyCiphertext
  | parsingEncodedDataInvalidIkmId (bytes : List Nat)
  | parsingEncodedDataInvalidIkmLen (got : Nat)
  | parsingEncodedDataInvalidIkmListId (bytes : List Nat)
  | parsingEncodedDataInvalidIkmListLen (got : Nat)
  | parsingEncodedDataInvalidPartLen (expected got : Nat)
  | parsingEncodedDataInvalidTimestamp (bytes : List Nat)
  | parsingEncodedDataInvalidIkmlVersion
  | parsingEncodedDataInvalidEncVersion
  | parsingSchemeUnknownScheme (tag : Nat)
  | policyDecryptionEarly
  | policyDecryptionExpiredEnc
  | policyDecryptionExpiredNow
  | policyDecryptionFuture
  | policyDecryptionRevoked
  | randomSourceError
  | systemTimeError
  | systemTimeReprError (ts : Nat)
deriving DecidableEq, Repr

/-- The five policy errors of src/error.rs. -/
def Error.is_policy : Error → Bool
  | .policyDecryptionEarly => true
  | .policyDecryptionExpiredEnc => true
  | .policyDecryptionExpiredNow => true
  | .policyDecryptionFuture => true
  | .policyDecryptionRevoked => true
  | _ => false

/-- Encryption schemes (src/scheme.rs). -/
inductive Scheme
  | xchacha20poly1305WithBlake3
  | aes128GcmWithSha256
deriving DecidableEq, Repr

/-- Numeric tag of a scheme (the Rust enum discriminant, used by the
cast to SchemeSerializeType). -/
def Scheme.tag : Scheme → Nat
  | .xchacha20poly1305WithBlake3 => 1
  | .aes128GcmWithSha256 => 2

/-- Scheme::get_ikm_size (src/scheme.rs). -/
def Scheme.get_ikm_size : Scheme → Nat
  | .xchacha20poly1305WithBlake3 => 32
  | .aes128GcmWithSha256 => 32

/-- TryFrom SchemeSerializeType for Scheme (src/scheme.rs). -/
def scheme_try_from (value : Nat) : Except Error Scheme :=
  if value = 1 then .ok .xchacha20poly1305WithBlake3
  else if value = 2 then .ok .aes128GcmWithSha256
  else .error (.parsingSchemeUnknownScheme value)

/-- Rust std::time::SystemTime, restricted to instants at or after the
Unix epoch: whole seconds plus a sub-second part. -/
structure SystemTime where
  secs : Nat
  sub : Nat
deriving DecidableEq, Repr

/-- Strict comparison of instants (full precision, like Rust Ord on
SystemTime). -/
def SystemTime.ltb (a b : SystemTime) : Bool :=
  a.secs < b.secs || (a.secs == b.secs && a.sub < b.sub)

/-- Non-strict comparison of instants. -/
def SystemTime.leb (a b : SystemTime) : Bool :=
  a.secs < b.secs || (a.secs == b.secs && a.sub ≤ b.sub)

/-- Truncation to whole seconds (what as_secs keeps of a timestamp). -/
def SystemTime.trunc (t : SystemTime) : SystemTime :=
  ⟨t.secs, 0⟩

/-- An input key material record (src/ikm.rs). -/
structure InputKeyMaterial where
  id : Nat
  scheme : Scheme
  content : List Nat
  not_before : SystemTime
  not_after : SystemTime
  is_revoked : Bool
deriving DecidableEq, Repr

/-- An IKM list (src/ikm.rs). -/
structure InputKeyMaterialList where
  ikm_lst : List InputKeyMaterial
  id_counter : Nat
deriving DecidableEq, Repr

/-- Encrypted data (src/encrypted_data.rs). -/
structure EncryptedData where
  nonce : List Nat
  ciphertext : List Nat
deriving DecidableEq, Repr

/-- Key context (src/context.rs); the context strings are modelled
directly by their byte lists. -/
structure KeyContext where
  ctx : List (List Nat)
  periodicity : Option Nat
deriving DecidableEq, Repr

/-- Data context (src/context.rs). -/
structure DataContext where
  ctx : List (List Nat)
deriving DecidableEq, Repr

/-- KeyContext::get_ctx_elems (src/context.rs): the context elements as
byte strings, with the time period appended when present. -/
def KeyContext.get_ctx_elems (kc : KeyContext) (time_period : Option Nat) :
    List (List Nat) :=
  kc.ctx ++ (match time_period with
    | some tp => [u64_le_bytes tp]
    | none => [])

/-- KeyContext::get_time_period (src/context.rs). -/
def KeyContext.get_time_period (kc : KeyContext) (timestamp : Nat) : Option Nat :=
  kc.periodicity.map (fun p => timestamp / p)

/-- KeyContext::is_periodic (src/context.rs). -/
def KeyContext.is_periodic (kc : KeyContext) : Bool :=
  kc.periodicity.isSome

/-- DataContext::get_ctx_elems (src/context.rs). -/
def DataContext.get_ctx_elems (dc : DataContext) : List (List Nat) :=
  dc.ctx

/-- The canonicalization function (src/canonicalization.rs): base64url
encode every element and join the encodings with a colon. -/
def canonicalize (context : List (List Nat)) : List Nat :=
  match context with
  | [] => []
  | [x] => b64_encode x
  | _ => join_colon (context.map b64_encode)

/-- join_canonicalized_str (src/canonicalization.rs). -/
def join_canonicalized_str (elems : List (List Nat)) : List Nat :=
  join_colon elems

/-- Version tag of the IKM list text form ("ikml-v1:"). -/
def ikml_v1_tag : List Nat :=
  asciiOf "ikml-v1:"

/-- Version tag of the ciphertext token text form ("enc-v1:"). -/
def enc_v1_tag : List Nat :=
  asciiOf "enc-v1:"

/-- Base64url encoding of raw data (encode_data, src/storage.rs). -/
def encode_data (data : List Nat) : List Nat :=
  b64_encode data

/-- Base64url decoding of raw data (decode_data, src/storage.rs); the
base64 error is converted into the library error type. -/
def decode_data (s : List Nat) : Except Error (List Nat) :=
  match b64_decode s with
  | .ok bs => .ok bs
  | .error e => .error (.parsingBase64Error e)

/-- InputKeyMaterial::as_bytes (src/ikm.rs). In the source this returns
a Result because duration_since fails on pre-epoch instants; such
instants are not representable in this model, so the function is total. -/
def InputKeyMaterial.as_bytes (ikm : InputKeyMaterial) : List Nat :=
  u32_le_bytes ikm.id ++ u32_le_bytes ikm.scheme.tag ++ ikm.content ++
  u64_le_bytes ikm.not_before.secs ++ u64_le_bytes ikm.not_after.secs ++
  [if ikm.is_revoked then 1 else 0]

/-- InputKeyMaterial::from_bytes (src/ikm.rs). The timestamps are read
through bytes_to_system_time; its failure (checked_add overflowing the
platform representation) cannot occur in this model of SystemTime. -/
def InputKeyMaterial.from_bytes (b : List Nat) : Except Error InputKeyMaterial :=
  if b.length < 25 then .error (.parsingEncodedDataInvalidIkmLen b.length)
  else
    match scheme_try_from (from_le_bytes ((b.drop 4).take 4)) with
    | .error e => .error e
    | .ok scheme =>
      let is := scheme.get_ikm_size
      if b.length ≠ 25 + is then .error (.parsingEncodedDataInvalidIkmLen b.length)
      else .ok
        { id := from_le_bytes (b.take 4)
          scheme := scheme
          content := (b.drop 8).take is
          not_before := ⟨from_le_bytes ((b.drop (8 + is)).take 8), 0⟩
          not_after := ⟨from_le_bytes ((b.drop (8 + is + 8)).take 8), 0⟩
          is_revoked := b.getD (8 + is + 8 + 8) 0 != 0 }

/-- encode_ikm_list (src/storage.rs): the version tag, the encoded
id counter, then a colon-preceded encoded record for each IKM. -/
def encode_ikm_list (ikml : InputKeyMaterialList) : List Nat :=
  ikml_v1_tag ++ encode_data (u32_le_bytes ikml.id_counter) ++
  ikml.ikm_lst.flatMap (fun ikm => 58 :: encode_data ikm.as_bytes)

/-- encode_cipher (src/storage.rs). -/
def encode_cipher (ikm_id : Nat) (encrypted_data : EncryptedData)
    (time_period : Option Nat) : List Nat :=
  enc_v1_tag ++ encode_data (u32_le_bytes ikm_id) ++
  58 :: encode_data encrypted_data.nonce ++
  58 :: encode_data encrypted_data.ciphertext ++
  (match time_period with
   | some tp => 58 :: encode_data (u64_le_bytes tp)
   | none => [])

/-- Decoding loop over the encoded IKM records inside decode_ikm_list
(src/storage.rs, the for loop over v[1..]). -/
def decode_ikm_parts : List (List Nat) → Except Error (List InputKeyMaterial)
  | [] => .ok []
  | p :: ps =>
    match decode_data p with
    | .error e => .error e
    | .ok raw =>
      match InputKeyMaterial.from_bytes raw with
      | .error e => .error e
      | .ok ikm =>
        match decode_ikm_parts ps with
        | .error e => .error e
        | .ok rest => .ok (ikm :: rest)

/-- decode_ikm_list (src/storage.rs). -/
def decode_ikm_list (data : List Nat) : Except Error InputKeyMaterialList :=
  match strip_tag ikml_v1_tag data with
  | none => .error .parsingEncodedDataInvalidIkmlVersion
  | some rest =>
    match split_colon rest with
    | [] => .error (.parsingEncodedDataInvalidIkmListLen 0)
    | v0 :: vrest =>
      match decode_data v0 with
      | .error e => .error e
      | .ok id_data =>
        if id_data.length ≠ 4 then .error (.parsingEncodedDataInvalidIkmListId id_data)
        else
          match decode_ikm_parts vrest with
          | .error e => .error e
          | .ok lst => .ok ⟨lst, from_le_bytes id_data⟩

/-- Tail of decode_cipher (src/storage.rs) after the time period has
been popped: the part-count check, the ikm id, the nonce and the
ciphertext. -/
def decode_cipher_parts (v : List (List Nat)) (time_period : Option Nat) :
    Except Error (Nat × EncryptedData × Option Nat) :=
  if v.length ≠ 3 then .error (.parsingEncodedDataInvalidPartLen 3 v.length)
  else
    match decode_data (v.getD 0 []) with
    | .error e => .error e
    | .ok id_raw =>
      if id_raw.length ≠ 4 then .error (.parsingEncodedDataInvalidIkmId id_raw)
      else
        match decode_data (v.getD 1 []) with
        | .error e => .error e
        | .ok nonce =>
          match decode_data (v.getD 2 []) with
          | .error e => .error e
          | .ok ciphertext =>
            if nonce = [] then .error .parsingEncodedDataEmptyNonce
            else if ciphertext = [] then .error .parsingEncodedDataEmptyCiphertext
            else .ok (from_le_bytes id_raw, ⟨nonce, ciphertext⟩, time_period)

/-- decode_cipher (src/storage.rs): strip the version tag, split on
colons, pop and decode the time period when there are four parts, then
decode the remaining three parts. -/
def decode_cipher (data : List Nat) :
    Except Error (Nat × EncryptedData × Option Nat) :=
  match strip_tag enc_v1_tag data with
  | none => .error .parsingEncodedDataInvalidEncVersion
  | some rest =>
    let v := split_colon rest
    match (if v.length = 3 + 1 then
             match decode_data (v.getLastD []) with
             | .error e => .error e
             | .ok tp_raw =>
               if tp_raw.length = 8 then .ok (v.dropLast, some (from_le_bytes tp_raw))
               else .error (.parsingEncodedDataInvalidTimestamp tp_raw)
           else .ok (v, none) : Except Error (List (List Nat) × Option Nat)) with
    | .error e => .error e
    | .ok (v, time_period) => decode_cipher_parts v time_period

/-- Default IKM validity duration in seconds (src/lib.rs). -/
def DEFAULT_IKM_DURATION : Nat := 315569252

/-- Default key-context periodicity in seconds (src/lib.rs). -/
def DEFAULT_KEY_CTX_PERIODICITY : Nat := 31556925

/-- Default scheme when the chacha feature is enabled (src/lib.rs). -/
def DEFAULT_SCHEME : Scheme := .xchacha20poly1305WithBlake3

/-- InputKeyMaterialList::get_latest_ikm (src/ikm.rs): last insertion-order
record that is not revoked and whose validity window strictly contains the
encryption time. -/
def InputKeyMaterialList.get_latest_ikm (lst : InputKeyMaterialList)
    (encryption_time : SystemTime) : Except Error InputKeyMaterial :=
  match lst.ikm_lst.reverse.find? (fun ikm =>
      !ikm.is_revoked && SystemTime.ltb ikm.not_before encryption_time &&
      SystemTime.ltb encryption_time ikm.not_after) with
  | some ikm => .ok ikm
  | none => .error .ikmNoneAvailable

/-- InputKeyMaterialList::get_ikm_by_id (src/ikm.rs). -/
def InputKeyMaterialList.get_ikm_by_id (lst : InputKeyMaterialList) (id : Nat) :
    Except Error InputKeyMaterial :=
  match lst.ikm_lst.find? (fun ikm => ikm.id == id) with
  | some ikm => .ok ikm
  | none => .error (.ikmNotFound id)

/-- InputKeyMaterialList::add_custom_ikm (src/ikm.rs). The OS RNG is a
parameter giving the generated seed bytes by position (its only failure,
RandomSourceError, is outside this model); the id counter increment is a
u32 addition. Returns the updated list and the new id. -/
def InputKeyMaterialList.add_custom_ikm (lst : InputKeyMaterialList)
    (scheme : Scheme) (not_before not_after : SystemTime) (rng : Nat → Nat) :
    InputKeyMaterialList × Nat :=
  let content := (List.range scheme.get_ikm_size).map rng
  let new_counter := (lst.id_counter + 1) % 4294967296
  (⟨lst.ikm_lst ++
    [{ id := new_counter, scheme := scheme, content := content,
       not_before := not_before, not_after := not_after, is_revoked := false }],
    new_counter⟩, new_counter)

/-- InputKeyMaterialList::add_ikm (src/ikm.rs): the wall clock is a
parameter standing for SystemTime::now(). -/
def InputKeyMaterialList.add_ikm (lst : InputKeyMaterialList)
    (now : SystemTime) (rng : Nat → Nat) : InputKeyMaterialList × Nat :=
  lst.add_custom_ikm DEFAULT_SCHEME now ⟨now.secs + DEFAULT_IKM_DURATION, now.sub⟩ rng

/-- Marking the first record with the given id as revoked (the iter_mut
find inside revoke_ikm, src/ikm.rs). -/
def revoke_first : List InputKeyMaterial → Nat → Option (List InputKeyMaterial)
  | [], _ => none
  | ikm :: rest, id =>
    if ikm.id = id then some ({ ikm with is_revoked := true } :: rest)
    else (revoke_first rest id).map (ikm :: ·)

/-- InputKeyMaterialList::revoke_ikm (src/ikm.rs). -/
def InputKeyMaterialList.revoke_ikm (lst : InputKeyMaterialList) (id : Nat) :
    Except Error (InputKeyMaterialList × Nat) :=
  match revoke_first lst.ikm_lst id with
  | some l => .ok (⟨l, lst.id_counter⟩, id)
  | none => .error (.ikmNotFound id)

/-- InputKeyMaterialList::delete_ikm (src/ikm.rs). -/
def InputKeyMaterialList.delete_ikm (lst : InputKeyMaterialList) (id : Nat) :
    Except Error (InputKeyMaterialList × Nat) :=
  let l := lst.ikm_lst.filter (fun ikm => ikm.id != id)
  if l.length = lst.ikm_lst.length then .error (.ikmNotFound id)
  else .ok (⟨l, lst.id_counter⟩, id)

/-- The function values a scheme dispatches to (Scheme::get_kdf,
get_gen_nonce, get_encryption, get_decryption in src/scheme.rs); the
actual cryptographic primitives are external, so they are parameters. -/
structure SchemeImpl where
  kdf : List Nat → List Nat → List Nat
  gen_nonce : Except Error (List Nat)
  encrypt : List Nat → List Nat → List Nat → List Nat → Except Error EncryptedData
  decrypt : List Nat → EncryptedData → List Nat → Except Error (List Nat)

/-- derive_key (src/kdf.rs): the KDF of the scheme applied to the
canonicalized key context and the IKM seed. -/
def derive_key (impl : Scheme → SchemeImpl) (ikm : InputKeyMaterial)
    (ctx : KeyContext) (time_period : Option Nat) : List Nat :=
  (impl ikm.scheme).kdf (canonicalize (ctx.get_ctx_elems time_period)) ikm.content

/-- Coffio::generate_aad (src/coffio.rs). -/
def generate_aad (ikm_id : Nat) (nonce : List Nat) (key_context : KeyContext)
    (data_context : DataContext) (time_period : Option Nat) : List Nat :=
  join_canonicalized_str
    [canonicalize [u32_le_bytes ikm_id],
     canonicalize [nonce],
     canonicalize (key_context.get_ctx_elems time_period),
     canonicalize data_context.get_ctx_elems]

/-- Coffio::process_encrypt_at (src/coffio.rs). The duration_since call
on the encryption time cannot fail in this model (no pre-epoch
instants); as_secs is the whole-second part. -/
def process_encrypt_at (impl : Scheme → SchemeImpl)
    (ikm_list : InputKeyMaterialList) (key_context : KeyContext)
    (data_context : DataContext) (data : List Nat)
    (encryption_time : SystemTime) : Except Error (List Nat) :=
  let tp := if key_context.is_periodic
    then key_context.get_time_period encryption_time.secs
    else none
  Except.bind (ikm_list.get_latest_ikm encryption_time) (fun ikm =>
    let key := derive_key impl ikm key_context tp
    Except.bind (impl ikm.scheme).gen_nonce (fun nonce =>
      let aad := generate_aad ikm.id nonce key_context data_context tp
      Except.bind ((impl ikm.scheme).encrypt key nonce data aad) (fun encrypted_data =>
        .ok (encode_cipher ikm.id encrypted_data tp))))

/-- Coffio::decrypt (src/coffio.rs). -/
def Coffio.decrypt (impl : Scheme → SchemeImpl)
    (ikm_list : InputKeyMaterialList) (key_context : KeyContext)
    (data_context : DataContext) (stored_data : List Nat) :
    Except Error (List Nat) :=
  match decode_cipher stored_data with
  | .error e => .error e
  | .ok (ikm_id, encrypted_data, tp) =>
    match ikm_list.get_ikm_by_id ikm_id with
    | .error e => .error e
    | .ok ikm =>
      let key := derive_key impl ikm key_context tp
      let aad := generate_aad ikm.id encrypted_data.nonce key_context data_context tp
      (impl ikm.scheme).decrypt key encrypted_data aad

/-- Actions of the decryption policy (src/policy.rs). -/
inductive DecryptionPolicyAction
  | allow
  | deny
  | warn
deriving DecidableEq, Repr

/-- The decryption policy (src/policy.rs). -/
structure DecryptionPolicy where
  early_enc : DecryptionPolicyAction
  expired_enc : DecryptionPolicyAction
  expired_now : DecryptionPolicyAction
  future_enc : DecryptionPolicyAction
  revoked : DecryptionPolicyAction
deriving DecidableEq, Repr

/-- Default for DecryptionPolicy (src/policy.rs). -/
def DecryptionPolicy.default : DecryptionPolicy :=
  { early_enc := .deny, expired_enc := .deny, expired_now := .warn,
    future_enc := .deny, revoked := .warn }

/-- The policy_match macro of src/policy.rs: Allow continues, Deny
returns the error, Warn logs the error (a side effect outside this
model) and continues. -/
def policy_step (action : DecryptionPolicyAction) (e : Error) : Except Error Unit :=
  match action with
  | .allow => .ok ()
  | .deny => .error e
  | .warn => .ok ()

/-- Early-return sequencing of two checks: the second runs only when
the first did not return an error (the control flow of consecutive
policy_match statements in src/policy.rs). -/
def check_seq (step rest : Except Error Unit) : Except Error Unit :=
  match step with
  | .error e => .error e
  | .ok _ => rest

/-- process_check (src/policy.rs). The duration_since calls cannot fail
in this model (no pre-epoch instants). -/
def process_check (policy : DecryptionPolicy) (ikm : InputKeyMaterial)
    (key_ctx : KeyContext) (time_period : Option Nat)
    (curr_time : SystemTime) : Except Error Unit :=
  check_seq
    (if ikm.is_revoked
     then policy_step policy.revoked .policyDecryptionRevoked
     else .ok ())
  (check_seq
    (if SystemTime.ltb ikm.not_after curr_time
     then policy_step policy.expired_now .policyDecryptionExpiredNow
     else .ok ())
  (match time_period with
   | none => .ok ()
   | some tp =>
     check_seq
       (match key_ctx.get_time_period ikm.not_after.secs with
        | some max_tp =>
          if tp > max_tp
          then policy_step policy.expired_enc .policyDecryptionExpiredEnc
          else .ok ()
        | none => .ok ())
     (check_seq
       (match key_ctx.get_time_period ikm.not_before.secs with
        | some min_tp =>
          if tp < min_tp
          then policy_step policy.early_enc .policyDecryptionEarly
          else .ok ()
        | none => .ok ())
      (match key_ctx.get_time_period curr_time.secs with
       | some now_tp =>
         if tp > now_tp
         then policy_step policy.future_enc .policyDecryptionFuture
         else .ok ()
       | none => .ok ()))))

/-- aes128gcm_encrypt (src/scheme/aes.rs). The AES-128-GCM core is the
parameter core (key, 12-byte nonce, plaintext, aad to ciphertext or an
opaque cipher error). The result is none where the Rust code panics:
Key::from_slice on a key whose length is not 16, or slicing nonce[0..12]
out of a shorter nonce. -/
def aes128gcm_encrypt
    (core : List Nat → List Nat → List Nat → List Nat → Except Unit (List Nat))
    (key nonce data aad : List Nat) : Option (Except Error EncryptedData) :=
  if key.length ≠ 16 then none
  else if nonce.length < 12 then none
  else some (match core key (nonce.take 12) data aad with
    | .ok ciphertext => .ok ⟨nonce.take 12, ciphertext⟩
    | .error _ => .error .aesGcmError)

/-- aes128gcm_decrypt (src/scheme/aes.rs). The core parameter is the
AES-128-GCM opening primitive. The result is none where the Rust code
panics: Key::from_slice on a key whose length is not 16 (this happens
before the nonce size check). -/
def aes128gcm_decrypt
    (core : List Nat → List Nat → List Nat → List Nat → Except Unit (List Nat))
    (key : List Nat) (encrypted_data : EncryptedData) (aad : List Nat) :
    Option (Except Error (List Nat)) :=
  if key.length ≠ 16 then none
  else some (
    if encrypted_data.nonce.length ≠ 12 then
      .error (.invalidNonceSize 12 encrypted_data.nonce.length)
    else match core key (encrypted_data.nonce.take 12) encrypted_data.ciphertext aad with
      | .ok plaintext => .ok plaintext
      | .error _ => .error .aesGcmError)

theorem drop_len_append : ∀ (l₁ : List Nat) (l₂ : List Nat) (n : Nat),
    l₁.length = n → (l₁ ++ l₂).drop n = l₂
  | [], l₂, n, h => by cases h; rfl
  | x :: xs, l₂, n, h => by
    cases n with
    | zero => simp at h
    | succ m =>
      simp only [List.length_cons, Nat.succ.injEq] at h
      simp only [List.cons_append, List.drop_succ_cons]
      exact drop_len_append xs l₂ m h

theorem take_len_append : ∀ (l₁ : List Nat) (l₂ : List Nat) (n : Nat),
    l₁.length = n → (l₁ ++ l₂).take n = l₁
  | [], l₂, n, h => by cases h; rfl
  | x :: xs, l₂, n, h => by
    cases n with
    | zero => simp at h
    | succ m =>
      simp only [List.length_cons, Nat.succ.injEq] at h
      simp only [List.cons_append, List.take_succ_cons]
      rw [take_len_append xs l₂ m h]

theorem getD_eq_headD_drop : ∀ (l : List Nat) (n : Nat) (d : Nat),
    l.getD n d = (l.drop n).headD d
  | [], n, d => by simp
  | x :: xs, 0, d => by simp
  | x :: xs, n + 1, d => by
    simp only [List.drop_succ_cons]
    rw [← getD_eq_headD_drop xs n d]
    rfl

theorem from_bytes_as_bytes (ikm : InputKeyMaterial)
    (hlen : ikm.content.length = ikm.scheme.get_ikm_size)
    (hid : ikm.id < 4294967296)
    (hnb : ikm.not_before.secs < 18446744073709551616)
    (hna : ikm.not_after.secs < 18446744073709551616) :
    InputKeyMaterial.from_bytes ikm.as_bytes =
      .ok ⟨ikm.id, ikm.scheme, ikm.content,
           ikm.not_before.trunc, ikm.not_after.trunc, ikm.is_revoked⟩ := by
  obtain ⟨id, scheme, content, nb, na, rev⟩ := ikm
  simp only at hlen hid hnb hna
  have hsize : scheme.get_ikm_size = 32 := by cases scheme <;> rfl
  rw [hsize] at hlen
  have hview : InputKeyMaterial.as_bytes ⟨id, scheme, content, nb, na, rev⟩ =
      u32_le_bytes id ++ (u32_le_bytes scheme.tag ++ (content ++
      (u64_le_bytes nb.secs ++ (u64_le_bytes na.secs ++
      [if rev then 1 else 0])))) := by
    simp [InputKeyMaterial.as_bytes]
  have hlen_all : (InputKeyMaterial.as_bytes ⟨id, scheme, content, nb, na, rev⟩).length = 57 := by
    rw [hview]
    simp [u32_le_bytes, u64_le_bytes, hlen]
  have e_tag : ((InputKeyMaterial.as_bytes ⟨id, scheme, content, nb, na, rev⟩).drop 4).take 4 =
      u32_le_bytes scheme.tag := by
    rw [hview, drop_len_append (u32_le_bytes id) _ 4 rfl]
    exact take_len_append _ _ 4 rfl
  have e_id : (InputKeyMaterial.as_bytes ⟨id, scheme, content, nb, na, rev⟩).take 4 =
      u32_le_bytes id := by
    rw [hview]
    exact take_len_append _ _ 4 rfl
  have e_content : ((InputKeyMaterial.as_bytes ⟨id, scheme, content, nb, na, rev⟩).drop 8).take 32 =
      content := by
    rw [hview, show u32_le_bytes id ++ (u32_le_bytes scheme.tag ++ (content ++
      (u64_le_bytes nb.secs ++ (u64_le_bytes na.secs ++ [if rev then 1 else 0])))) =
      (u32_le_bytes id ++ u32_le_bytes scheme.tag) ++ (content ++
      (u64_le_bytes nb.secs ++ (u64_le_bytes na.secs ++ [if rev then 1 else 0])))
      from by simp [List.append_assoc]]
    rw [drop_len_append _ _ 8 (by simp [u32_le_bytes])]
    exact take_len_append _ _ 32 hlen
  have e_nb : ((InputKeyMaterial.as_bytes ⟨id, scheme, content, nb, na, rev⟩).drop 40).take 8 =
      u64_le_bytes nb.secs := by
    rw [hview, show u32_le_bytes id ++ (u32_le_bytes scheme.tag ++ (content ++
      (u64_le_bytes nb.secs ++ (u64_le_bytes na.secs ++ [if rev then 1 else 0])))) =
      ((u32_le_bytes id ++ u32_le_bytes scheme.tag) ++ content) ++
      (u64_le_bytes nb.secs ++ (u64_le_bytes na.secs ++ [if rev then 1 else 0]))
      from by simp [List.append_assoc]]
    rw [drop_len_append _ _ 40 (by simp [u32_le_bytes, hlen])]
    exact take_len_append _ _ 8 rfl
  have e_na : ((InputKeyMaterial.as_bytes ⟨id, scheme, content, nb, na, rev⟩).drop 48).take 8 =
      u64_le_bytes na.secs := by
    rw [hview, show u32_le_bytes id ++ (u32_le_bytes scheme.tag ++ (content ++
      (u64_le_bytes nb.secs ++ (u64_le_bytes na.secs ++ [if rev then 1 else 0])))) =
      (((u32_le_bytes id ++ u32_le_bytes scheme.tag) ++ content) ++ u64_le_bytes nb.secs) ++
      (u64_le_bytes na.secs ++ [if rev then 1 else 0])
      from by simp [List.append_assoc]]
    rw [drop_len_append _ _ 48 (by simp [u32_le_bytes, u64_le_bytes, hlen])]
    exact take_len_append _ _ 8 rfl
  have e_rev : (InputKeyMaterial.as_bytes ⟨id, scheme, content, nb, na, rev⟩).getD 56 0 =
      (if rev then 1 else 0) := by
    rw [getD_eq_headD_drop, hview, show u32_le_bytes id ++ (u32_le_bytes scheme.tag ++ (content ++
      (u64_le_bytes nb.secs ++ (u64_le_bytes na.secs ++ [if rev then 1 else 0])))) =
      ((((u32_le_bytes id ++ u32_le_bytes scheme.tag) ++ content) ++ u64_le_bytes nb.secs) ++
      u64_le_bytes na.secs) ++ [if rev then 1 else 0]
      from by simp [List.append_assoc]]
    rw [drop_len_append _ _ 56 (by simp [u32_le_bytes, u64_le_bytes, hlen])]
    rfl
  have e_scheme : scheme_try_from (from_le_bytes (u32_le_bytes scheme.tag)) = .ok scheme := by
    cases scheme <;> rfl
  rw [InputKeyMaterial.from_bytes]
  rw [hlen_all, e_tag, e_scheme]
  simp only [hsize, hlen_all]
  norm_num
  rw [e_id, e_content]
  rw [show (40 : Nat) = 8 + 32 from rfl] at e_nb
  rw [show (48 : Nat) = 8 + 32 + 8 from rfl] at e_na
  rw [e_nb, e_na]
  refine ⟨from_le_u32 id hid, rfl, ?_, ?_, ?_⟩
  · rw [from_le_u64 nb.secs hnb]
    rfl
  · rw [from_le_u64 na.secs hna]
    rfl
  · simp only [List.getD, List.get?_eq_getElem?] at e_rev
    rw [e_rev]
    cases rev <;> rfl

/-- An IKM record with its timestamps truncated to whole seconds (what
a serialization round trip preserves). -/
def InputKeyMaterial.trunc (ikm : InputKeyMaterial) : InputKeyMaterial :=
  { ikm with not_before := ikm.not_before.trunc, not_after := ikm.not_after.trunc }

/-- An IKM list with the timestamps of every record truncated to whole
seconds. -/
def InputKeyMaterialList.trunc (lst : InputKeyMaterialList) : InputKeyMaterialList :=
  ⟨lst.ikm_lst.map InputKeyMaterial.trunc, lst.id_counter⟩

theorem as_bytes_lt (ikm : InputKeyMaterial) (h : ∀ b ∈ ikm.content, b < 256) :
    ∀ b ∈ ikm.as_bytes, b < 256 := by
  intro b hb
  simp only [InputKeyMaterial.as_bytes, List.mem_append, List.mem_singleton] at hb
  rcases hb with ((((h1 | h2) | h3) | h4) | h5) | h6
  · exact u32_le_bytes_lt _ b h1
  · exact u32_le_bytes_lt _ b h2
  · exact h b h3
  · exact u64_le_bytes_lt _ b h4
  · exact u64_le_bytes_lt _ b h5
  · cases hr : ikm.is_revoked <;> rw [hr] at h6 <;> simp at h6 <;> omega

theorem split_colon_head_flatMap (a : List Nat) (l : List InputKeyMaterial)
    (f : InputKeyMaterial → List Nat) (ha : ∀ c ∈ a, c ≠ 58)
    (hf : ∀ x ∈ l, ∀ c ∈ f x, c ≠ 58) :
    split_colon (a ++ l.flatMap (fun x => 58 :: f x)) = a :: l.map f := by
  induction l generalizing a with
  | nil =>
    simp only [List.flatMap_nil, List.append_nil, List.map_nil]
    exact split_colon_no_colon a ha
  | cons x xs ih =>
    have hx : ∀ c ∈ f x, c ≠ 58 := hf x (by simp)
    have hxs : ∀ y ∈ xs, ∀ c ∈ f y, c ≠ 58 := fun y hy => hf y (by simp [hy])
    rw [List.flatMap_cons,
      show (58 :: f x) ++ xs.flatMap (fun y => 58 :: f y) =
        58 :: (f x ++ xs.flatMap (fun y => 58 :: f y)) from rfl,
      split_colon_append a _ ha, ih (f x) hx hxs]
    simp

theorem decode_ikm_parts_map (l : List InputKeyMaterial)
    (h : ∀ ikm ∈ l, ikm.content.length = ikm.scheme.get_ikm_size ∧
      (∀ b ∈ ikm.content, b < 256) ∧ ikm.id < 4294967296 ∧
      ikm.not_before.secs < 18446744073709551616 ∧
      ikm.not_after.secs < 18446744073709551616) :
    decode_ikm_parts (l.map (fun ikm => encode_data ikm.as_bytes)) =
      .ok (l.map InputKeyMaterial.trunc) := by
  induction l with
  | nil => rfl
  | cons x xs ih =>
    obtain ⟨h1, h2, h3, h4, h5⟩ := h x (by simp)
    have hd : decode_data (encode_data x.as_bytes) = .ok x.as_bytes := by
      rw [encode_data, decode_data, b64_decode_encode _ (as_bytes_lt x h2)]
    have hfb := from_bytes_as_bytes x h1 h3 h4 h5
    rw [List.map_cons, List.map_cons, decode_ikm_parts, hd]
    simp only [hfb, ih (fun ikm hikm => h ikm (by simp [hikm]))]
    rfl

/-- The common shape of decode_ikm_list applied to encode_ikm_list. -/
theorem decode_encode_ikm_list (L : InputKeyMaterialList)
    (hcnt : L.id_counter < 4294967296)
    (h : ∀ ikm ∈ L.ikm_lst, ikm.content.length = ikm.scheme.get_ikm_size ∧
      (∀ b ∈ ikm.content, b < 256) ∧ ikm.id < 4294967296 ∧
      ikm.not_before.secs < 18446744073709551616 ∧
      ikm.not_after.secs < 18446744073709551616) :
    decode_ikm_list (encode_ikm_list L) = .ok L.trunc := by
  have hsplit : split_colon (encode_data (u32_le_bytes L.id_counter) ++
      L.ikm_lst.flatMap (fun ikm => 58 :: encode_data ikm.as_bytes)) =
      encode_data (u32_le_bytes L.id_counter) ::
        L.ikm_lst.map (fun ikm => encode_data ikm.as_bytes) :=
    split_colon_head_flatMap _ _ _
      (fun c hc => b64_encode_ne_colon _ c hc)
      (fun x _ c hc => b64_encode_ne_colon _ c hc)
  have hd : decode_data (encode_data (u32_le_bytes L.id_counter)) =
      .ok (u32_le_bytes L.id_counter) := by
    rw [encode_data, decode_data, b64_decode_encode _ (u32_le_bytes_lt _)]
  rw [encode_ikm_list, decode_ikm_list, List.append_assoc, strip_tag_append]
  simp only [hsplit, hd, u32_le_bytes_length, ne_eq, not_true_eq_false, if_false,
    decode_ikm_parts_map L.ikm_lst h, from_le_u32 _ hcnt]
  rfl

deriving instance DecidableEq for Except

/-- Claim C3: for every IKM list L, with fields within the Rust machine
types (u32 id and id_counter, u64 whole-second timestamps, seed bytes of
the IKM size of the scheme), decoding the encoded text form gives back an
equal list, where equality on the timestamp fields is taken after
truncating them to whole seconds:
decode_ikm_list (encode_ikm_list L) = ok (trunc L). -/
theorem c3_import_export_round_trip (L : InputKeyMaterialList)
    (hcnt : L.id_counter < 4294967296)
    (h : ∀ ikm ∈ L.ikm_lst, ikm.content.length = ikm.scheme.get_ikm_size ∧
      (∀ b ∈ ikm.content, b < 256) ∧ ikm.id < 4294967296 ∧
      ikm.not_before.secs < 18446744073709551616 ∧
      ikm.not_after.secs < 18446744073709551616) :
    decode_ikm_list (encode_ikm_list L) = .ok L.trunc :=
  decode_encode_ikm_list L hcnt h

/-- Concrete two-record list exercising C3. -/
def c3_witness_list : InputKeyMaterialList :=
  ⟨[⟨1, .xchacha20poly1305WithBlake3, List.replicate 32 7, ⟨100, 5⟩, ⟨200, 9⟩, true⟩,
    ⟨2, .aes128GcmWithSha256, List.replicate 32 255, ⟨0, 0⟩,
     ⟨18446744073709551615, 123⟩, false⟩], 6⟩

theorem c3_import_export_round_trip_witness :
    c3_witness_list.id_counter < 4294967296 ∧
    decode_ikm_list (encode_ikm_list c3_witness_list) = .ok c3_witness_list.trunc :=
  ⟨by decide, c3_import_export_round_trip c3_witness_list (by decide) (by decide)⟩

theorem decode_data_error_base64 (s : List Nat) (e : Error)
    (h : decode_data s = .error e) : ∃ be, e = .parsingBase64Error be := by
  rw [decode_data] at h
  cases hb : b64_decode s with
  | ok bs => rw [hb] at h; simp at h
  | error be => rw [hb] at h; simp at h; exact ⟨be, h.symm⟩

theorem scheme_try_from_error (v : Nat) (e : Error)
    (h : scheme_try_from v = .error e) : e = .parsingSchemeUnknownScheme v := by
  rw [scheme_try_from] at h
  by_cases h1 : v = 1
  · rw [if_pos h1] at h; simp at h
  · rw [if_neg h1] at h
    by_cases h2 : v = 2
    · rw [if_pos h2] at h; simp at h
    · rw [if_neg h2] at h
      simp at h
      exact h.symm

theorem from_bytes_error_shape (b : List Nat) (e : Error)
    (h : InputKeyMaterial.from_bytes b = .error e) :
    (∃ n, e = .parsingEncodedDataInvalidIkmLen n) ∨
    (∃ t, e = .parsingSchemeUnknownScheme t) := by
  rw [InputKeyMaterial.from_bytes] at h
  by_cases h25 : b.length < 25
  · rw [if_pos h25] at h
    simp at h
    exact Or.inl ⟨_, h.symm⟩
  · rw [if_neg h25] at h
    cases hs : scheme_try_from (from_le_bytes ((b.drop 4).take 4)) with
    | error e2 =>
      rw [hs] at h
      simp at h
      exact Or.inr ⟨_, h.symm ▸ scheme_try_from_error _ _ hs⟩
    | ok scheme =>
      rw [hs] at h
      simp only at h
      by_cases hl : b.length ≠ 25 + scheme.get_ikm_size
      · rw [if_pos hl] at h
        simp at h
        exact Or.inl ⟨_, h.symm⟩
      · rw [if_neg hl] at h
        simp at h

theorem decode_ikm_parts_error_shape : ∀ (parts : List (List Nat)) (e : Error),
    decode_ikm_parts parts = .error e →
    (∃ be, e = .parsingBase64Error be) ∨
    (∃ n, e = .parsingEncodedDataInvalidIkmLen n) ∨
    (∃ t, e = .parsingSchemeUnknownScheme t)
  | [], e, h => by simp [decode_ikm_parts] at h
  | p :: ps, e, h => by
    rw [decode_ikm_parts] at h
    cases hd : decode_data p with
    | error e2 =>
      rw [hd] at h
      simp at h
      exact Or.inl (h ▸ decode_data_error_base64 p e2 hd)
    | ok raw =>
      rw [hd] at h
      simp only at h
      cases hf : InputKeyMaterial.from_bytes raw with
      | error e2 =>
        rw [hf] at h
        simp at h
        exact Or.inr (h ▸ from_bytes_error_shape raw e2 hf)
      | ok ikm =>
        rw [hf] at h
        simp only at h
        cases hp : decode_ikm_parts ps with
        | error e2 =>
          rw [hp] at h
          simp at h
          exact h ▸ decode_ikm_parts_error_shape ps e2 hp
        | ok rest =>
          rw [hp] at h
          simp at h

/-- Recognizer of the unreachable list-length error of decode_ikm_list. -/
def is_ikm_list_len_error : Except Error InputKeyMaterialList → Bool
  | .error (.parsingEncodedDataInvalidIkmListLen _) => true
  | _ => false

/-- Claim C9: the branch of decode_ikm_list returning
ParsingEncodedDataInvalidIkmListLen is unreachable: splitting on the
colon always yields at least one part, so no input ever produces that
error; in particular the bare prefixed input decodes the empty first
part to zero bytes and fails with ParsingEncodedDataInvalidIkmListId []. -/
theorem c9_ikm_list_len_unreachable :
    (∀ s : List Nat, 0 < (split_colon s).length) ∧
    (∀ data : List Nat, is_ikm_list_len_error (decode_ikm_list data) = false) ∧
    decode_ikm_list (asciiOf "ikml-v1:") =
      .error (.parsingEncodedDataInvalidIkmListId []) := by
  refine ⟨fun s => List.length_pos.mpr (split_colon_ne_nil s), ?_, by decide⟩
  intro data
  rw [decode_ikm_list]
  cases hs : strip_tag ikml_v1_tag data with
  | none => rfl
  | some rest =>
    simp only
    cases hsp : split_colon rest with
    | nil => exact absurd hsp (split_colon_ne_nil rest)
    | cons v0 vrest =>
      simp only
      cases hd : decode_data v0 with
      | error e =>
        obtain ⟨be, hbe⟩ := decode_data_error_base64 v0 e hd
        simp [hbe, is_ikm_list_len_error]
      | ok id_data =>
        simp only
        by_cases hlen : id_data.length ≠ 4
        · rw [if_pos hlen]
          rfl
        · rw [if_neg hlen]
          cases hp : decode_ikm_parts vrest with
          | error e =>
            rcases decode_ikm_parts_error_shape vrest e hp with ⟨be, hbe⟩ | ⟨n, hn⟩ | ⟨t, ht⟩
            · simp [hbe, is_ikm_list_len_error]
            · simp [hn, is_ikm_list_len_error]
            · simp [ht, is_ikm_list_len_error]
          | ok lst => rfl

/-- Claim-side restatement of get_latest_ikm for C4: iterate the list in
reverse insertion order and return the first record with is_revoked
false, not_before strictly below the given time and not_after strictly
above it; IkmNoneAvailable when no record qualifies. -/
def spec_get_latest_ikm (lst : InputKeyMaterialList) (at_time : SystemTime) :
    Except Error InputKeyMaterial :=
  match lst.ikm_lst.reverse.find? (fun ikm =>
      (ikm.is_revoked == false) && SystemTime.ltb ikm.not_before at_time &&
      SystemTime.ltb at_time ikm.not_after) with
  | some ikm => .ok ikm
  | none => .error .ikmNoneAvailable

/-- The six-record reference list TEST_STR of the test suite, in the
versioned ikml-v1 text form. -/
def test_ikml_str : List Nat := asciiOf "ikml-v1:BgAAAA:AQAAAAEAAACUAPcqngJ46_HMtJSdIw-WeUtImcCVxOA47n6UIN5K2TbmoVwAAAAANmuEXgAAAAAB:AgAAAAEAAADf7CR8vl_aWOUyfsO0ek0YQr_Yi7L_sJmF2nIt_XOaCzYNal4AAAAAtkBLYAAAAAAA:AwAAAAEAAAAMoNIW9gIGkzegUDEsU3N1Rf_Zz0OMuylUSiQjUzLXqzY0MmAAAAAANsk0iwEAAAAA:BAAAAAEAAABbwRrMz3x3DkfOEFg1BHfLLRHoNqg6d_xGWwdh48hH8rZm9mEAAAAANjy9YwAAAAAA:BQAAAAEAAAA2LwnTgDUF7qn7dy79VA24JSSgo6vllAtU5zmhrxNJu7YIz4sBAAAANoUMjgEAAAAB:BgAAAAEAAAAn0Vqe2f9YRXBt6xVYaeSLs0Gf0S0_5B-hk-a2b0rhlraCJbwAAAAAtlErjAEAAAAA"

/-- Claim C4: get_latest_ikm returns the first record, in reverse
insertion order, that is not revoked and whose validity window strictly
contains the given time, failing with IkmNoneAvailable otherwise; on the
decoded six-record reference list it yields IkmNoneAvailable at time 0,
id 2 at time 1592734902 and id 3 at time 1712475802. -/
theorem c4_get_latest_ikm :
    (∀ (lst : InputKeyMaterialList) (t : SystemTime),
      lst.get_latest_ikm t = spec_get_latest_ikm lst t) ∧
    ((decode_ikm_list test_ikml_str).bind
      (fun lst => lst.get_latest_ikm ⟨0, 0⟩)) = .error .ikmNoneAvailable ∧
    ((decode_ikm_list test_ikml_str).bind
      (fun lst => lst.get_latest_ikm ⟨1592734902, 0⟩)).map
        (fun ikm => ikm.id) = .ok 2 ∧
    ((decode_ikm_list test_ikml_str).bind
      (fun lst => lst.get_latest_ikm ⟨1712475802, 0⟩)).map
        (fun ikm => ikm.id) = .ok 3 := by
  refine ⟨?_, by decide, by decide, by decide⟩
  intro lst t
  rw [InputKeyMaterialList.get_latest_ikm, spec_get_latest_ikm]
  rw [show (fun ikm : InputKeyMaterial =>
      !ikm.is_revoked && SystemTime.ltb ikm.not_before t &&
      SystemTime.ltb t ikm.not_after) = (fun ikm =>
      (ikm.is_revoked == false) && SystemTime.ltb ikm.not_before t &&
      SystemTime.ltb t ikm.not_after) from
    funext (fun ikm => by cases h : ikm.is_revoked <;> simp [h])]

theorem canonicalize_eq_join : ∀ (zs : List (List Nat)), zs ≠ [] →
    canonicalize zs = join_colon (zs.map b64_encode)
  | [], h => absurd rfl h
  | [x], _ => rfl
  | x :: y :: rest, _ => rfl

theorem map_b64_encode_injective : ∀ (xs ys : List (List Nat)),
    (∀ e ∈ xs, ∀ b ∈ e, b < 256) → (∀ e ∈ ys, ∀ b ∈ e, b < 256) →
    xs.map b64_encode = ys.map b64_encode → xs = ys
  | [], [], _, _, _ => rfl
  | [], _ :: _, _, _, h => by simp at h
  | _ :: _, [], _, _, h => by simp at h
  | x :: xs, y :: ys, hx, hy, h => by
    simp only [List.map_cons, List.cons.injEq] at h
    rw [b64_encode_injective x y (hx x (by simp)) (hy y (by simp)) h.1,
      map_b64_encode_injective xs ys (fun e he => hx e (by simp [he]))
        (fun e he => hy e (by simp [he])) h.2]

/-- Claim C2 counterexample: the empty sequence and the sequence holding
one empty byte string are different, yet both canonicalize to the empty
string. -/
theorem c2_canonicalize_not_injective :
    canonicalize [] = canonicalize [[]] ∧ ([] : List (List Nat)) ≠ [[]] :=
  ⟨rfl, by decide⟩

/-- Claim C2 amended: canonicalize is injective on ordered sequences of
byte strings except for the single collision between the empty sequence
and the sequence holding one empty byte string: if canonicalize xs =
canonicalize ys then xs = ys, or one of xs, ys is the empty sequence and
the other holds exactly one empty byte string. -/
theorem c2_canonicalize_injective (xs ys : List (List Nat))
    (hx : ∀ e ∈ xs, ∀ b ∈ e, b < 256) (hy : ∀ e ∈ ys, ∀ b ∈ e, b < 256)
    (h : canonicalize xs = canonicalize ys) :
    xs = ys ∨ (xs = [] ∧ ys = [[]]) ∨ (xs = [[]] ∧ ys = []) := by
  match xs, ys with
  | [], [] => exact Or.inl rfl
  | [], [y] =>
    rw [show canonicalize [y] = b64_encode y from rfl] at h
    rw [b64_encode_eq_nil y h.symm]
    exact Or.inr (Or.inl ⟨rfl, rfl⟩)
  | [], y :: z :: rest =>
    rw [show canonicalize (y :: z :: rest) =
      b64_encode y ++ 58 :: join_colon ((z :: rest).map b64_encode) from rfl] at h
    simp [canonicalize] at h
  | [x], [] =>
    rw [show canonicalize [x] = b64_encode x from rfl] at h
    rw [b64_encode_eq_nil x h]
    exact Or.inr (Or.inr ⟨rfl, rfl⟩)
  | x :: z :: rest, [] =>
    rw [show canonicalize (x :: z :: rest) =
      b64_encode x ++ 58 :: join_colon ((z :: rest).map b64_encode) from rfl] at h
    simp [canonicalize] at h
  | x :: xs, y :: ys =>
    rw [canonicalize_eq_join (x :: xs) (by simp),
      canonicalize_eq_join (y :: ys) (by simp)] at h
    have hsx := split_join_colon ((x :: xs).map b64_encode) (by simp)
      (by intro p hp c hc
          simp only [List.mem_map] at hp
          obtain ⟨e, _, he⟩ := hp
          exact b64_encode_ne_colon e c (he ▸ hc))
    have hsy := split_join_colon ((y :: ys).map b64_encode) (by simp)
      (by intro p hp c hc
          simp only [List.mem_map] at hp
          obtain ⟨e, _, he⟩ := hp
          exact b64_encode_ne_colon e c (he ▸ hc))
    rw [h] at hsx
    rw [hsx] at hsy
    exact Or.inl (map_b64_encode_injective _ _ hx hy hsy)

theorem c2_canonicalize_injective_witness :
    [[104, 105]] = ([[104, 105]] : List (List Nat)) ∨
    ([[104, 105]] : List (List Nat)) = [] ∧ ([[104, 105]] : List (List Nat)) = [[]] ∨
    [[104, 105]] = [[]] ∧ ([[104, 105]] : List (List Nat)) = [] :=
  c2_canonicalize_injective [[104, 105]] [[104, 105]] (by decide) (by decide) rfl

/-- Claim-side restatement of the policy check for C5: the five
conditions in the claimed order with the claimed floor-division bounds,
short-circuiting on Deny, Allow and Warn silent in the result. -/
def spec_policy_check (policy : DecryptionPolicy) (ikm : InputKeyMaterial)
    (key_ctx : KeyContext) (time_period : Option Nat)
    (now : SystemTime) : Except Error Unit :=
  check_seq
    (if ikm.is_revoked
     then policy_step policy.revoked .policyDecryptionRevoked
     else .ok ())
  (check_seq
    (if SystemTime.ltb ikm.not_after now
     then policy_step policy.expired_now .policyDecryptionExpiredNow
     else .ok ())
  (match time_period, key_ctx.periodicity with
   | some tp, some p =>
     check_seq
       (if tp > ikm.not_after.secs / p
        then policy_step policy.expired_enc .policyDecryptionExpiredEnc
        else .ok ())
     (check_seq
       (if tp < ikm.not_before.secs / p
        then policy_step policy.early_enc .policyDecryptionEarly
        else .ok ())
      (if tp > now.secs / p
       then policy_step policy.future_enc .policyDecryptionFuture
       else .ok ()))
   | _, _ => .ok ()))

/-- Claim C5: the policy check evaluates Revoked, ExpiredNow and then,
only with a time period and a periodic key context, ExpiredAtEncryption,
EarlyEncryption and FutureEncryption, in that order with the claimed
floor-division conditions, short-circuiting on Deny with the
correspondingly named error while Allow and Warn do not abort; and the
default policy is Revoked=Warn, ExpiredNow=Warn, ExpiredAtEncryption=Deny,
EarlyEncryption=Deny, FutureEncryption=Deny. -/
theorem c5_policy_check :
    (∀ (policy : DecryptionPolicy) (ikm : InputKeyMaterial)
       (key_ctx : KeyContext) (time_period : Option Nat)
       (curr_time : SystemTime),
      process_check policy ikm key_ctx time_period curr_time =
        spec_policy_check policy ikm key_ctx time_period curr_time) ∧
    DecryptionPolicy.default =
      { early_enc := .deny, expired_enc := .deny, expired_now := .warn,
        future_enc := .deny, revoked := .warn } := by
  refine ⟨?_, rfl⟩
  intro policy ikm kc tp now
  rw [process_check.eq_def, spec_policy_check.eq_def]
  congr 1
  congr 1
  cases tp with
  | none => cases hp : kc.periodicity <;> rfl
  | some t =>
    cases hp : kc.periodicity with
    | none => simp [KeyContext.get_time_period, hp, check_seq]
    | some p => simp [KeyContext.get_time_period, hp]

/-- Outcome of the time-period extraction step of decode_cipher on the
split parts: either exactly three parts and no time period, or exactly
four parts whose popped last part decodes to eight bytes read as a
little-endian 64-bit integer. -/
def time_period_phase (v v2 : List (List Nat)) (tp : Option Nat) : Prop :=
  (v.length = 3 ∧ v2 = v ∧ tp = none) ∨
  (v.length = 4 ∧ ∃ bs, decode_data (v.getLastD []) = .ok bs ∧ bs.length = 8 ∧
    v2 = v.dropLast ∧ tp = some (from_le_bytes bs))

theorem decode_cipher_phase_eq (s rest : List Nat) (v2 : List (List Nat))
    (tp : Option Nat) (hstrip : strip_tag enc_v1_tag s = some rest)
    (hph : time_period_phase (split_colon rest) v2 tp) :
    decode_cipher s = decode_cipher_parts v2 tp := by
  rw [decode_cipher, hstrip]
  rcases hph with ⟨hl3, hv2, htp⟩ | ⟨hl4, bs, hbs, h8, hv2, htp⟩
  · subst hv2
    subst htp
    simp [hl3]
  · subst hv2
    subst htp
    have hbs2 : decode_data ((split_colon rest).getLast?.getD []) = .ok bs := by
      rw [← List.getLastD_eq_getLast?]
      exact hbs
    simp [hl4, hbs2, h8]

theorem decode_cipher_parts_ok_tp (v : List (List Nat)) (tp : Option Nat)
    (r : Nat × EncryptedData × Option Nat)
    (h : decode_cipher_parts v tp = .ok r) : r.2.2 = tp := by
  rw [decode_cipher_parts] at h
  by_cases h3 : v.length ≠ 3
  · rw [if_pos h3] at h
    cases h
  · rw [if_neg h3] at h
    revert h
    cases hd0 : decode_data (v.getD 0 []) with
    | error e => intro h; cases h
    | ok id_raw =>
      intro h
      simp only [] at h
      by_cases h4 : id_raw.length ≠ 4
      · rw [if_pos h4] at h
        cases h
      · rw [if_neg h4] at h
        revert h
        cases hd1 : decode_data (v.getD 1 []) with
        | error e => intro h; cases h
        | ok nonce =>
          intro h
          simp only [] at h
          revert h
          cases hd2 : decode_data (v.getD 2 []) with
          | error e => intro h; cases h
          | ok ct =>
            intro h
            simp only [] at h
            by_cases hn : nonce = []
            · rw [if_pos hn] at h
              cases h
            · rw [if_neg hn] at h
              by_cases hc : ct = []
              · rw [if_pos hc] at h
                cases h
              · rw [if_neg hc] at h
                cases h
                rfl

/-- Claim C6: decode_cipher fails with InvalidEncVersion without the
enc-v1 prefix; with four parts the last is decoded as a little-endian
64-bit time period and any other decoded length gives InvalidTimestamp;
with three parts the result carries no time period; any other part count
gives InvalidPartLen(3, got); an ikm-id part not decoding to exactly
four bytes gives InvalidIkmId, an empty decoded nonce EmptyNonce, and an
empty decoded ciphertext EmptyCiphertext. -/
theorem c6_decode_cipher_errors :
    (∀ s : List Nat, strip_tag enc_v1_tag s = none →
      decode_cipher s = .error .parsingEncodedDataInvalidEncVersion) ∧
    (∀ s rest bs, strip_tag enc_v1_tag s = some rest →
      (split_colon rest).length = 4 →
      decode_data ((split_colon rest).getLastD []) = .ok bs →
      bs.length ≠ 8 →
      decode_cipher s = .error (.parsingEncodedDataInvalidTimestamp bs)) ∧
    (∀ s rest, strip_tag enc_v1_tag s = some rest →
      (split_colon rest).length ≠ 3 → (split_colon rest).length ≠ 4 →
      decode_cipher s =
        .error (.parsingEncodedDataInvalidPartLen 3 (split_colon rest).length)) ∧
    (∀ s rest v2 tp r, strip_tag enc_v1_tag s = some rest →
      time_period_phase (split_colon rest) v2 tp →
      decode_cipher s = .ok r → r.2.2 = tp) ∧
    (∀ s rest v2 tp id_raw, strip_tag enc_v1_tag s = some rest →
      time_period_phase (split_colon rest) v2 tp →
      decode_data (v2.getD 0 []) = .ok id_raw → id_raw.length ≠ 4 →
      decode_cipher s = .error (.parsingEncodedDataInvalidIkmId id_raw)) ∧
    (∀ s rest v2 tp id_raw ct, strip_tag enc_v1_tag s = some rest →
      time_period_phase (split_colon rest) v2 tp →
      decode_data (v2.getD 0 []) = .ok id_raw → id_raw.length = 4 →
      decode_data (v2.getD 1 []) = .ok [] →
      decode_data (v2.getD 2 []) = .ok ct →
      decode_cipher s = .error .parsingEncodedDataEmptyNonce) ∧
    (∀ s rest v2 tp id_raw nonce, strip_tag enc_v1_tag s = some rest →
      time_period_phase (split_colon rest) v2 tp →
      decode_data (v2.getD 0 []) = .ok id_raw → id_raw.length = 4 →
      decode_data (v2.getD 1 []) = .ok nonce → nonce ≠ [] →
      decode_data (v2.getD 2 []) = .ok [] →
      decode_cipher s = .error .parsingEncodedDataEmptyCiphertext) := by
  have hlen : ∀ (v v2 : List (List Nat)) (tp : Option Nat),
      time_period_phase v v2 tp → v2.length = 3 := by
    intro v v2 tp hph
    rcases hph with ⟨hl3, hv2, _⟩ | ⟨hl4, _, _, _, hv2, _⟩
    · rw [hv2, hl3]
    · rw [hv2, List.length_dropLast, hl4]
  refine ⟨?_, ?_, ?_, ?_, ?_, ?_, ?_⟩
  · intro s hstrip
    rw [decode_cipher, hstrip]
  · intro s rest bs hstrip hl4 hdec hbs
    have hdec2 : decode_data ((split_colon rest).getLast?.getD []) = .ok bs := by
      rw [← List.getLastD_eq_getLast?]
      exact hdec
    rw [decode_cipher, hstrip]
    simp [hl4, hdec2, hbs]
  · intro s rest hstrip h3 h4
    rw [decode_cipher, hstrip]
    simp [h3, h4, decode_cipher_parts]
  · intro s rest v2 tp r hstrip hph hr
    rw [decode_cipher_phase_eq s rest v2 tp hstrip hph] at hr
    exact decode_cipher_parts_ok_tp v2 tp r hr
  · intro s rest v2 tp id_raw hstrip hph hid h4
    rw [decode_cipher_phase_eq s rest v2 tp hstrip hph, decode_cipher_parts,
      if_neg (by rw [hlen _ _ _ hph]; omega), hid]
    simp only []
    rw [if_pos h4]
  · intro s rest v2 tp id_raw ct hstrip hph hid h4 hnonce hct
    rw [decode_cipher_phase_eq s rest v2 tp hstrip hph, decode_cipher_parts,
      if_neg (by rw [hlen _ _ _ hph]; omega), hid]
    simp only []
    rw [if_neg (by omega), hnonce]
    simp only []
    rw [hct]
    simp
  · intro s rest v2 tp id_raw nonce hstrip hph hid h4 hnonce hne hct
    rw [decode_cipher_phase_eq s rest v2 tp hstrip hph, decode_cipher_parts,
      if_neg (by rw [hlen _ _ _ hph]; omega), hid]
    simp only []
    rw [if_neg (by omega), hnonce]
    simp only []
    rw [hct]
    simp [hne]

theorem c6_decode_cipher_errors_witness :
    decode_cipher (asciiOf "xyz") = .error .parsingEncodedDataInvalidEncVersion ∧
    decode_cipher (asciiOf "enc-v1:AA:AA:AA:AA") =
      .error (.parsingEncodedDataInvalidTimestamp [0]) ∧
    decode_cipher (asciiOf "enc-v1:AA:AA") =
      .error (.parsingEncodedDataInvalidPartLen 3
        (split_colon (asciiOf "AA:AA")).length) ∧
    ((0 : Nat), (⟨[1], [1]⟩ : EncryptedData),
      (some 0 : Option Nat)).2.2 = some (from_le_bytes [0, 0, 0, 0, 0, 0, 0, 0]) ∧
    decode_cipher (asciiOf "enc-v1:AA:AQ:AQ") =
      .error (.parsingEncodedDataInvalidIkmId [0]) ∧
    decode_cipher (asciiOf "enc-v1:AAAAAA::AQ") =
      .error .parsingEncodedDataEmptyNonce ∧
    decode_cipher (asciiOf "enc-v1:AAAAAA:AQ:") =
      .error .parsingEncodedDataEmptyCiphertext :=
  ⟨c6_decode_cipher_errors.1 (asciiOf "xyz") (by decide),
   c6_decode_cipher_errors.2.1 (asciiOf "enc-v1:AA:AA:AA:AA")
     (asciiOf "AA:AA:AA:AA") [0] (by decide) (by decide) (by decide) (by decide),
   c6_decode_cipher_errors.2.2.1 (asciiOf "enc-v1:AA:AA") (asciiOf "AA:AA")
     (by decide) (by decide) (by decide),
   c6_decode_cipher_errors.2.2.2.1 (asciiOf "enc-v1:AAAAAA:AQ:AQ:AAAAAAAAAAA")
     (asciiOf "AAAAAA:AQ:AQ:AAAAAAAAAAA")
     (split_colon (asciiOf "AAAAAA:AQ:AQ:AAAAAAAAAAA")).dropLast
     (some (from_le_bytes [0, 0, 0, 0, 0, 0, 0, 0]))
     (0, ⟨[1], [1]⟩, some 0) (by decide)
     (Or.inr ⟨by decide, [0, 0, 0, 0, 0, 0, 0, 0], by decide, by decide, rfl, rfl⟩)
     (by decide),
   c6_decode_cipher_errors.2.2.2.2.1 (asciiOf "enc-v1:AA:AQ:AQ")
     (asciiOf "AA:AQ:AQ") (split_colon (asciiOf "AA:AQ:AQ")) none [0]
     (by decide) (Or.inl ⟨by decide, rfl, rfl⟩) (by decide) (by decide),
   c6_decode_cipher_errors.2.2.2.2.2.1 (asciiOf "enc-v1:AAAAAA::AQ")
     (asciiOf "AAAAAA::AQ") (split_colon (asciiOf "AAAAAA::AQ")) none
     [0, 0, 0, 0] [1]
     (by decide) (Or.inl ⟨by decide, rfl, rfl⟩) (by decide) (by decide)
     (by decide) (by decide),
   c6_decode_cipher_errors.2.2.2.2.2.2 (asciiOf "enc-v1:AAAAAA:AQ:")
     (asciiOf "AAAAAA:AQ:") (split_colon (asciiOf "AAAAAA:AQ:")) none
     [0, 0, 0, 0] [1]
     (by decide) (Or.inl ⟨by decide, rfl, rfl⟩) (by decide) (by decide)
     (by decide) (by decide) (by decide)⟩

theorem split_colon_three (A B C : List Nat) (hA : ∀ c ∈ A, c ≠ 58)
    (hB : ∀ c ∈ B, c ≠ 58) (hC : ∀ c ∈ C, c ≠ 58) :
    split_colon (A ++ 58 :: (B ++ 58 :: C)) = [A, B, C] := by
  rw [split_colon_append A _ hA, split_colon_append B _ hB,
    split_colon_no_colon C hC]

theorem split_colon_four (A B C D : List Nat) (hA : ∀ c ∈ A, c ≠ 58)
    (hB : ∀ c ∈ B, c ≠ 58) (hC : ∀ c ∈ C, c ≠ 58) (hD : ∀ c ∈ D, c ≠ 58) :
    split_colon (A ++ 58 :: (B ++ 58 :: (C ++ 58 :: D))) = [A, B, C, D] := by
  rw [split_colon_append A _ hA, split_colon_append B _ hB,
    split_colon_append C _ hC, split_colon_no_colon D hD]

/-- Claim-side restatement of the encryption pipeline for C7: with a
static key context the bare context elements feed the KDF and the AAD
and the token has three parts; with a periodic key context the time
period floor(whole_seconds / p) is appended as the trailing element of
the key-context vector fed to the KDF and to the AAD, and as the fourth
token part. -/
def spec_encrypt_at (impl : Scheme → SchemeImpl)
    (ikm_list : InputKeyMaterialList) (kc : KeyContext) (dc : DataContext)
    (data : List Nat) (t : SystemTime) : Except Error (List Nat) :=
  match kc.periodicity with
  | none =>
    Except.bind (ikm_list.get_latest_ikm t) (fun ikm =>
      let key := (impl ikm.scheme).kdf (canonicalize kc.ctx) ikm.content
      Except.bind (impl ikm.scheme).gen_nonce (fun nonce =>
        let aad := join_canonicalized_str
          [canonicalize [u32_le_bytes ikm.id], canonicalize [nonce],
           canonicalize kc.ctx, canonicalize dc.ctx]
        Except.bind ((impl ikm.scheme).encrypt key nonce data aad) (fun ed =>
          .ok (enc_v1_tag ++ encode_data (u32_le_bytes ikm.id) ++
            58 :: (encode_data ed.nonce ++ 58 :: encode_data ed.ciphertext)))))
  | some p =>
    let tp := t.secs / p
    let ctx_vec := kc.ctx ++ [u64_le_bytes tp]
    Except.bind (ikm_list.get_latest_ikm t) (fun ikm =>
      let key := (impl ikm.scheme).kdf (canonicalize ctx_vec) ikm.content
      Except.bind (impl ikm.scheme).gen_nonce (fun nonce =>
        let aad := join_canonicalized_str
          [canonicalize [u32_le_bytes ikm.id], canonicalize [nonce],
           canonicalize ctx_vec, canonicalize dc.ctx]
        Except.bind ((impl ikm.scheme).encrypt key nonce data aad) (fun ed =>
          .ok (enc_v1_tag ++ encode_data (u32_le_bytes ikm.id) ++
            58 :: (encode_data ed.nonce ++
              58 :: (encode_data ed.ciphertext ++
                58 :: encode_data (u64_le_bytes tp)))))))

/-- Claim C7: the encryption pipeline appends a time period equal to
floor(whole_seconds_since_epoch / periodicity) to the key-context vector
fed to the KDF and the AAD and to the token exactly when the key context
is periodic: a static context gives a three-part token with no time
period, a periodic one a four-part token whose fourth part encodes that
time period. -/
theorem c7_time_period_iff_periodic :
    (∀ impl ikm_list kc dc data t,
      process_encrypt_at impl ikm_list kc dc data t =
        spec_encrypt_at impl ikm_list kc dc data t) ∧
    (∀ impl ikm_list kc dc data t s,
      process_encrypt_at impl ikm_list kc dc data t = .ok s →
      (kc.periodicity = none →
        (strip_tag enc_v1_tag s).map (fun r => (split_colon r).length) = some 3) ∧
      (∀ p, kc.periodicity = some p →
        (strip_tag enc_v1_tag s).map (fun r => (split_colon r).length) = some 4 ∧
        (strip_tag enc_v1_tag s).map (fun r => (split_colon r).getLastD []) =
          some (encode_data (u64_le_bytes (t.secs / p))))) := by
  have heq : ∀ impl ikm_list kc dc data t,
      process_encrypt_at impl ikm_list kc dc data t =
        spec_encrypt_at impl ikm_list kc dc data t := by
    intro impl ikm_list kc dc data t
    cases hp : kc.periodicity with
    | none =>
      simp [process_encrypt_at, spec_encrypt_at, derive_key, generate_aad,
        encode_cipher, KeyContext.get_ctx_elems, KeyContext.is_periodic,
        KeyContext.get_time_period, DataContext.get_ctx_elems, hp]
    | some p =>
      simp [process_encrypt_at, spec_encrypt_at, derive_key, generate_aad,
        encode_cipher, KeyContext.get_ctx_elems, KeyContext.is_periodic,
        KeyContext.get_time_period, DataContext.get_ctx_elems, hp]
  refine ⟨heq, ?_⟩
  intro impl ikm_list kc dc data t s hs
  rw [heq] at hs
  constructor
  · intro hp
    rw [spec_encrypt_at, hp] at hs
    revert hs
    cases hikm : ikm_list.get_latest_ikm t with
    | error e => intro hs; cases hs
    | ok ikm =>
      intro hs
      simp only [Except.bind] at hs
      revert hs
      cases hnon : (impl ikm.scheme).gen_nonce with
      | error e => intro hs; cases hs
      | ok nonce =>
        intro hs
        simp only [Except.bind] at hs
        revert hs
        cases henc : (impl ikm.scheme).encrypt
            ((impl ikm.scheme).kdf (canonicalize kc.ctx) ikm.content) nonce data
            (join_canonicalized_str
              [canonicalize [u32_le_bytes ikm.id], canonicalize [nonce],
               canonicalize kc.ctx, canonicalize dc.ctx]) with
        | error e => intro hs; cases hs
        | ok ed =>
          intro hs
          try simp only [Except.bind] at hs
          cases hs
          rw [List.append_assoc, strip_tag_append]
          simp only [encode_data, Option.map]
          rw [split_colon_three _ _ _
            (fun c hc => b64_encode_ne_colon _ c hc)
            (fun c hc => b64_encode_ne_colon _ c hc)
            (fun c hc => b64_encode_ne_colon _ c hc)]
          rfl
  · intro p hp
    rw [spec_encrypt_at, hp] at hs
    revert hs
    cases hikm : ikm_list.get_latest_ikm t with
    | error e => intro hs; cases hs
    | ok ikm =>
      intro hs
      simp only [Except.bind] at hs
      revert hs
      cases hnon : (impl ikm.scheme).gen_nonce with
      | error e => intro hs; cases hs
      | ok nonce =>
        intro hs
        simp only [Except.bind] at hs
        revert hs
        cases henc : (impl ikm.scheme).encrypt
            ((impl ikm.scheme).kdf
              (canonicalize (kc.ctx ++ [u64_le_bytes (t.secs / p)])) ikm.content)
            nonce data
            (join_canonicalized_str
              [canonicalize [u32_le_bytes ikm.id], canonicalize [nonce],
               canonicalize (kc.ctx ++ [u64_le_bytes (t.secs / p)]),
               canonicalize dc.ctx]) with
        | error e => intro hs; cases hs
        | ok ed =>
          intro hs
          try simp only [Except.bind] at hs
          cases hs
          rw [List.append_assoc, strip_tag_append]
          refine ⟨?_, ?_⟩ <;>
            simp only [encode_data, Option.map] <;>
            rw [split_colon_four _ _ _ _
              (fun c hc => b64_encode_ne_colon _ c hc)
              (fun c hc => b64_encode_ne_colon _ c hc)
              (fun c hc => b64_encode_ne_colon _ c hc)
              (fun c hc => b64_encode_ne_colon _ c hc)] <;>
            rfl

/-- Concrete scheme functions exercising the encryption pipeline. -/
def c7_witness_impl : Scheme → SchemeImpl := fun _ =>
  { kdf := fun c k => c ++ k
    gen_nonce := .ok [7, 7]
    encrypt := fun _ n d _ => .ok ⟨n, d ++ [1]⟩
    decrypt := fun _ ed _ => .ok ed.ciphertext }

/-- Concrete one-record list exercising the encryption pipeline. -/
def c7_witness_list : InputKeyMaterialList :=
  ⟨[⟨1, .xchacha20poly1305WithBlake3, List.replicate 32 0, ⟨0, 0⟩, ⟨100, 0⟩, false⟩], 1⟩

theorem c7_time_period_iff_periodic_witness :
    (strip_tag enc_v1_tag (encode_cipher 1 ⟨[7, 7], [5, 1]⟩ none)).map
      (fun r => (split_colon r).length) = some 3 ∧
    (strip_tag enc_v1_tag (encode_cipher 1 ⟨[7, 7], [5, 1]⟩ (some 7))).map
      (fun r => (split_colon r).length) = some 4 ∧
    (strip_tag enc_v1_tag (encode_cipher 1 ⟨[7, 7], [5, 1]⟩ (some 7))).map
      (fun r => (split_colon r).getLastD []) =
      some (encode_data (u64_le_bytes (50 / 7))) :=
  ⟨(c7_time_period_iff_periodic.2 c7_witness_impl c7_witness_list
      ⟨[[97]], none⟩ ⟨[]⟩ [5] ⟨50, 0⟩
      (encode_cipher 1 ⟨[7, 7], [5, 1]⟩ none) (by decide)).1 rfl,
   (c7_time_period_iff_periodic.2 c7_witness_impl c7_witness_list
      ⟨[[97]], some 7⟩ ⟨[]⟩ [5] ⟨50, 0⟩
      (encode_cipher 1 ⟨[7, 7], [5, 1]⟩ (some 7)) (by decide)).2 7 rfl⟩

theorem decode_cipher_parts_error_not_policy (v : List (List Nat))
    (tp : Option Nat) (e : Error)
    (h : decode_cipher_parts v tp = .error e) : e.is_policy = false := by
  rw [decode_cipher_parts] at h
  by_cases h3 : v.length ≠ 3
  · rw [if_pos h3] at h
    cases h
    rfl
  · rw [if_neg h3] at h
    revert h
    cases hd0 : decode_data (v.getD 0 []) with
    | error e2 =>
      intro h
      cases h
      obtain ⟨be, hbe⟩ := decode_data_error_base64 _ _ hd0
      rw [hbe]
      rfl
    | ok id_raw =>
      intro h
      simp only [] at h
      by_cases h4 : id_raw.length ≠ 4
      · rw [if_pos h4] at h
        cases h
        rfl
      · rw [if_neg h4] at h
        revert h
        cases hd1 : decode_data (v.getD 1 []) with
        | error e2 =>
          intro h
          cases h
          obtain ⟨be, hbe⟩ := decode_data_error_base64 _ _ hd1
          rw [hbe]
          rfl
        | ok nonce =>
          intro h
          simp only [] at h
          revert h
          cases hd2 : decode_data (v.getD 2 []) with
          | error e2 =>
            intro h
            cases h
            obtain ⟨be, hbe⟩ := decode_data_error_base64 _ _ hd2
            rw [hbe]
            rfl
          | ok ct =>
            intro h
            simp only [] at h
            by_cases hn : nonce = []
            · rw [if_pos hn] at h
              cases h
              rfl
            · rw [if_neg hn] at h
              by_cases hc : ct = []
              · rw [if_pos hc] at h
                cases h
                rfl
              · rw [if_neg hc] at h
                cases h

theorem decode_cipher_error_not_policy (s : List Nat) (e : Error)
    (h : decode_cipher s = .error e) : e.is_policy = false := by
  rw [decode_cipher] at h
  revert h
  cases hs : strip_tag enc_v1_tag s with
  | none =>
    intro h
    cases h
    rfl
  | some rest =>
    intro h
    simp only [] at h
    by_cases h4 : (split_colon rest).length = 3 + 1
    · rw [if_pos h4] at h
      revert h
      cases hd : decode_data ((split_colon rest).getLastD []) with
      | error e2 =>
        intro h
        simp only [] at h
        cases h
        obtain ⟨be, hbe⟩ := decode_data_error_base64 _ _ hd
        rw [hbe]
        rfl
      | ok tp_raw =>
        intro h
        simp only [] at h
        by_cases h8 : tp_raw.length = 8
        · rw [if_pos h8] at h
          exact decode_cipher_parts_error_not_policy _ _ _ h
        · rw [if_neg h8] at h
          cases h
          rfl
    · rw [if_neg h4] at h
      exact decode_cipher_parts_error_not_policy _ _ _ h

theorem get_ikm_by_id_error (lst : InputKeyMaterialList) (id : Nat) (e : Error)
    (h : lst.get_ikm_by_id id = .error e) : e = .ikmNotFound id := by
  rw [InputKeyMaterialList.get_ikm_by_id] at h
  revert h
  cases hf : lst.ikm_lst.find? (fun ikm => ikm.id == id) with
  | some ikm => intro h; cases h
  | none => intro h; cases h; rfl

/-- The IKM of the C1 counterexample: valid from 0 to 100, not revoked. -/
def c1_ikm : InputKeyMaterial :=
  ⟨1, .xchacha20poly1305WithBlake3, List.replicate 32 0, ⟨0, 0⟩, ⟨100, 0⟩, false⟩

/-- One-record list holding the C1 counterexample IKM. -/
def c1_lst : InputKeyMaterialList := ⟨[c1_ikm], 1⟩

/-- Scheme functions whose AEAD decryption accepts everything,
standing for a decryption whose tag verification succeeds. -/
def c1_impl : Scheme → SchemeImpl := fun _ =>
  { kdf := fun c _ => c
    gen_nonce := .ok [0]
    encrypt := fun _ n _ _ => .ok ⟨n, [1]⟩
    decrypt := fun _ _ _ => .ok [42] }

/-- Periodic key context with periodicity one second. -/
def c1_kc : KeyContext := ⟨[], some 1⟩

/-- A stored token naming IKM 1 with time period 200, far beyond the
validity window of the IKM. -/
def c1_tok : List Nat := encode_cipher 1 ⟨[7], [9]⟩ (some 200)

/-- Claim C1 counterexample: decrypting a token whose time period the
default policy denies (ExpiredAtEncryption: 200 > floor(100 / 1))
succeeds anyway: Coffio::decrypt never invokes the policy check, so no
Deny outcome aborts the decryption. -/
theorem c1_policy_not_invoked :
    Coffio.decrypt c1_impl c1_lst c1_kc ⟨[]⟩ c1_tok = .ok [42] ∧
    decode_cipher c1_tok = .ok (1, ⟨[7], [9]⟩, some 200) ∧
    c1_lst.get_ikm_by_id 1 = .ok c1_ikm ∧
    process_check DecryptionPolicy.default c1_ikm c1_kc (some 200) ⟨100, 0⟩ =
      .error .policyDecryptionExpiredEnc := by
  refine ⟨by decide, by decide, by decide, by decide⟩

/-- Claim C1 amended: the decryption pipeline of the Cipher Engine does
not invoke the policy check between IKM lookup and key derivation (or
anywhere else); provided the scheme decryption functions themselves
never produce a policy error, no decryption fails with one, whatever the
state of the IKM, the time period of the token and the current time. The policy
check exists only as the separate public DecryptionPolicy::check. -/
theorem c1_decrypt_never_policy_error (impl : Scheme → SchemeImpl)
    (himpl : ∀ (sch : Scheme) (key : List Nat) (ed : EncryptedData)
      (aad : List Nat) (e : Error),
      (impl sch).decrypt key ed aad = .error e → e.is_policy = false)
    (lst : InputKeyMaterialList) (kc : KeyContext) (dc : DataContext)
    (stored : List Nat) (e : Error)
    (h : Coffio.decrypt impl lst kc dc stored = .error e) :
    e.is_policy = false := by
  rw [Coffio.decrypt] at h
  revert h
  cases hd : decode_cipher stored with
  | error e2 =>
    intro h
    cases h
    exact decode_cipher_error_not_policy _ _ hd
  | ok r =>
    obtain ⟨ikm_id, ed, tp⟩ := r
    intro h
    simp only [] at h
    revert h
    cases hg : lst.get_ikm_by_id ikm_id with
    | error e2 =>
      intro h
      cases h
      rw [get_ikm_by_id_error _ _ _ hg]
      rfl
    | ok ikm =>
      intro h
      simp only [] at h
      exact himpl _ _ _ _ _ h

/-- Scheme functions for the C1 witness whose decryption never fails. -/
def c1_witness_impl : Scheme → SchemeImpl := fun _ =>
  { kdf := fun c _ => c
    gen_nonce := .ok []
    encrypt := fun _ _ _ _ => .ok ⟨[], []⟩
    decrypt := fun _ _ _ => .ok [] }

theorem c1_decrypt_never_policy_error_witness :
    Error.is_policy .parsingEncodedDataInvalidEncVersion = false :=
  c1_decrypt_never_policy_error c1_witness_impl
    (by intro sch key ed aad e h; simp [c1_witness_impl] at h)
    ⟨[], 0⟩ ⟨[], none⟩ ⟨[]⟩ [] .parsingEncodedDataInvalidEncVersion (by decide)

/-- The claimed record invariant, as a checkable predicate over a list:
every record has not_before at or before not_after. -/
def ikm_list_inv (lst : InputKeyMaterialList) : Bool :=
  lst.ikm_lst.all (fun ikm => SystemTime.leb ikm.not_before ikm.not_after)

/-- Claim C8 counterexample: add_custom_ikm performs no validation of
its two instants, so calling it with not_before = 5 s and
not_after = 3 s yields a reachable record violating
not_before ≤ not_after. -/
theorem c8_invariant_violable :
    ikm_list_inv (InputKeyMaterialList.add_custom_ikm ⟨[], 0⟩
      .xchacha20poly1305WithBlake3 ⟨5, 0⟩ ⟨3, 0⟩ (fun _ => 0)).1 = false := by
  decide

theorem revoke_first_keeps_inv : ∀ (l : List InputKeyMaterial) (id : Nat)
    (l2 : List InputKeyMaterial),
    (∀ i ∈ l, SystemTime.leb i.not_before i.not_after = true) →
    revoke_first l id = some l2 →
    ∀ i ∈ l2, SystemTime.leb i.not_before i.not_after = true
  | [], _, _, _, hr => by cases hr
  | ikm :: rest, id, l2, h, hr => by
    rw [revoke_first] at hr
    by_cases hid : ikm.id = id
    · rw [if_pos hid] at hr
      cases hr
      intro i hi
      rcases List.mem_cons.mp hi with hhead | htail
      · rw [hhead]
        exact h ikm (by simp)
      · exact h i (by simp [htail])
    · rw [if_neg hid] at hr
      revert hr
      cases hrec : revoke_first rest id with
      | none => intro hr; cases hr
      | some l3 =>
        intro hr
        cases hr
        intro i hi
        rcases List.mem_cons.mp hi with hhead | htail
        · rw [hhead]
          exact h ikm (by simp)
        · exact revoke_first_keeps_inv rest id l3
            (fun j hj => h j (by simp [hj])) hrec i htail

/-- Claim C8 amended: the not_before ≤ not_after invariant is preserved
by add_ikm (whose window is now to now plus the default duration), by
revoke_ikm and by delete_ikm, and by add_custom_ikm exactly when its
caller passes an ordered window; the library itself never enforces it,
so add_custom_ikm with unordered instants (and import of a string
encoding such a record) produces violating records. -/
theorem c8_invariant_preserved (lst : InputKeyMaterialList)
    (h : ikm_list_inv lst = true) :
    (∀ (now : SystemTime) (rng : Nat → Nat),
      ikm_list_inv (lst.add_ikm now rng).1 = true) ∧
    (∀ (scheme : Scheme) (nb na : SystemTime) (rng : Nat → Nat),
      SystemTime.leb nb na = true →
      ikm_list_inv (lst.add_custom_ikm scheme nb na rng).1 = true) ∧
    (∀ (id : Nat) (lst2 : InputKeyMaterialList) (rid : Nat),
      lst.revoke_ikm id = .ok (lst2, rid) → ikm_list_inv lst2 = true) ∧
    (∀ (id : Nat) (lst2 : InputKeyMaterialList) (rid : Nat),
      lst.delete_ikm id = .ok (lst2, rid) → ikm_list_inv lst2 = true) := by
  simp only [ikm_list_inv, List.all_eq_true] at h
  refine ⟨?_, ?_, ?_, ?_⟩
  · intro now rng
    simp only [InputKeyMaterialList.add_ikm, InputKeyMaterialList.add_custom_ikm,
      ikm_list_inv, List.all_eq_true]
    intro i hi
    rcases List.mem_append.mp hi with hold | hnew
    · exact h i hold
    · rw [List.mem_singleton.mp hnew]
      simp [SystemTime.leb, DEFAULT_IKM_DURATION]
  · intro scheme nb na rng hle
    simp only [InputKeyMaterialList.add_custom_ikm, ikm_list_inv, List.all_eq_true]
    intro i hi
    rcases List.mem_append.mp hi with hold | hnew
    · exact h i hold
    · rw [List.mem_singleton.mp hnew]
      exact hle
  · intro id lst2 rid hr
    rw [InputKeyMaterialList.revoke_ikm] at hr
    revert hr
    cases hrev : revoke_first lst.ikm_lst id with
    | none => intro hr; cases hr
    | some l2 =>
      intro hr
      cases hr
      simp only [ikm_list_inv, List.all_eq_true]
      exact revoke_first_keeps_inv lst.ikm_lst id l2 h hrev
  · intro id lst2 rid hr
    rw [InputKeyMaterialList.delete_ikm] at hr
    by_cases hl : (lst.ikm_lst.filter (fun ikm => ikm.id != id)).length =
        lst.ikm_lst.length
    · rw [if_pos hl] at hr
      cases hr
    · rw [if_neg hl] at hr
      cases hr
      simp only [ikm_list_inv, List.all_eq_true]
      intro i hi
      exact h i (List.mem_of_mem_filter hi)

theorem c8_invariant_preserved_witness :
    ikm_list_inv ((InputKeyMaterialList.mk [] 0).add_ikm ⟨9, 1⟩ (fun _ => 3)).1 = true :=
  (c8_invariant_preserved ⟨[], 0⟩ (by decide)).1 ⟨9, 1⟩ (fun _ => 3)

/-- Claim C10: aes128gcm_decrypt rejects every nonce whose length is not
exactly 12 bytes with InvalidNonceSize(12, got), while aes128gcm_encrypt
performs no such check: it slices the first 12 bytes of the supplied
nonce, so any extra bytes are silently ignored, and a nonce shorter than
12 bytes has no defined result (the slice panics, modelled as none). -/
theorem c10_aes_nonce_asymmetry :
    (∀ (core : List Nat → List Nat → List Nat → List Nat → Except Unit (List Nat))
       (key : List Nat) (ed : EncryptedData) (aad : List Nat),
      key.length = 16 → ed.nonce.length ≠ 12 →
      aes128gcm_decrypt core key ed aad =
        some (.error (.invalidNonceSize 12 ed.nonce.length))) ∧
    (∀ (core : List Nat → List Nat → List Nat → List Nat → Except Unit (List Nat))
       (key nonce data aad : List Nat),
      aes128gcm_encrypt core key nonce data aad =
        aes128gcm_encrypt core key (nonce.take 12) data aad) ∧
    (∀ (core : List Nat → List Nat → List Nat → List Nat → Except Unit (List Nat))
       (key nonce data aad : List Nat), nonce.length < 12 →
      aes128gcm_encrypt core key nonce data aad = none) := by
  refine ⟨?_, ?_, ?_⟩
  · intro core key ed aad hk hn
    rw [aes128gcm_decrypt, if_neg (by omega), if_pos hn]
  · intro core key nonce data aad
    rw [aes128gcm_encrypt, aes128gcm_encrypt]
    by_cases hk : key.length ≠ 16
    · rw [if_pos hk, if_pos hk]
    · rw [if_neg hk, if_neg hk]
      by_cases hn : nonce.length < 12
      · rw [if_pos hn, if_pos (by simp [List.length_take]; omega)]
      · rw [if_neg hn, if_neg (by simp [List.length_take]; omega)]
        rw [List.take_take]
        norm_num
  · intro core key nonce data aad hn
    rw [aes128gcm_encrypt]
    by_cases hk : key.length ≠ 16
    · rw [if_pos hk]
    · rw [if_neg hk, if_pos hn]

theorem c10_aes_nonce_asymmetry_witness :
    aes128gcm_decrypt (fun _ _ _ _ => .ok []) (List.replicate 16 0)
      ⟨[1, 2], [3]⟩ [] = some (.error (.invalidNonceSize 12 2)) ∧
    aes128gcm_encrypt (fun _ _ _ _ => .ok []) (List.replicate 16 0)
      [1] [] [] = none :=
  ⟨c10_aes_nonce_asymmetry.1 (fun _ _ _ _ => .ok []) (List.replicate 16 0)
      ⟨[1, 2], [3]⟩ [] (by decide) (by decide),
   c10_aes_nonce_asymmetry.2.2 (fun _ _ _ _ => .ok []) (List.replicate 16 0)
      [1] [] [] (by decide)⟩
